import Mathlib

/-!
Verification of the libzmx ZIP central-directory codec and attribute patcher.

This file is a shallow embedding of `libzmx/src/zip_format.rs`,
`libzmx/src/io_ext.rs` and `libzmx/src/lib.rs`.  Byte streams are modelled
as `List Nat` (each element one byte), machine integers as `Nat` (unsigned)
or `Int` (signed, two's-complement reinterpretation made explicit), and
every fallible operation returns an explicit outcome value.
-/

/-- Errors of `libzmx` (`Error` in `lib.rs`).  `Io` stands for any
underlying `std::io::Error` (short read, seek before zero, ...). -/
inductive ZmxError where
  | Io
  | MissingEndOfCentralDirectory
  | SpannedArchive
  | FieldTooLong
  | IncorrectSignature
  | RecordTooSmall
  | UnexpectedExtraDataLength (declared : Nat)
deriving DecidableEq, Repr

/-- Result of running a decoder: normal return, an `Error`, or abnormal
termination (`panic`), which models a Rust arithmetic-overflow panic in a
debug build (in a release build the same spot wraps and then aborts on a
failed multi-exabyte allocation; either way the function does not return). -/
inductive Outcome (α : Type) where
  | ok (value : α)
  | error (e : ZmxError)
  | panic
deriving DecidableEq, Repr

def Outcome.bind : Outcome α → (α → Outcome β) → Outcome β
  | .ok a, f => f a
  | .error e, _ => .error e
  | .panic, _ => .panic

instance : Monad Outcome where
  pure := .ok
  bind := Outcome.bind

/-- The record component of a decoder outcome, forgetting the unconsumed
trailing input. -/
def Outcome.recordOf : Outcome (α × List Nat) → Option α
  | .ok (a, _) => some a
  | _ => none

/-- Value of a little-endian byte sequence (`from_le_bytes`). -/
def leValue : List Nat → Nat
  | [] => 0
  | b :: rest => b + 256 * leValue rest

/-- Little-endian bytes of a 16-bit value (`u16::to_le_bytes`). -/
def u16leBytes (v : Nat) : List Nat :=
  [v % 256, v / 256 % 256]

/-- Little-endian bytes of a 32-bit value (`u32::to_le_bytes`). -/
def u32leBytes (v : Nat) : List Nat :=
  [v % 256, v / 256 % 256, v / 65536 % 256, v / 16777216 % 256]

/-- Little-endian bytes of a 64-bit value (`u64::to_le_bytes`). -/
def u64leBytes (v : Nat) : List Nat :=
  [v % 256, v / 256 % 256, v / 65536 % 256, v / 16777216 % 256,
   v / 4294967296 % 256, v / 1099511627776 % 256,
   v / 281474976710656 % 256, v / 72057594037927936 % 256]

/-- Bytes of an `i32` written via `write_i32_le`, i.e. the two's-complement
bit pattern of the signed value (`v as u32`). -/
def i32leBytes (v : Int) : List Nat :=
  u32leBytes (v % 4294967296).toNat

/-- Bytes of an `i64` written via `write_i64_le`. -/
def i64leBytes (v : Int) : List Nat :=
  u64leBytes (v % 18446744073709551616).toNat

/-- Reinterpret an unsigned 32-bit value as `i32` (`as i32`). -/
def asI32 (w : Nat) : Int :=
  if w < 2147483648 then (w : Int) else (w : Int) - 4294967296

/-- Reinterpret an unsigned 64-bit value as `i64` (`as i64`). -/
def asI64 (w : Nat) : Int :=
  if w < 9223372036854775808 then (w : Int) else (w : Int) - 18446744073709551616

/-- `read_exact` on a byte list: consume exactly `n` bytes or fail with an
I/O error (never a silent partial read). -/
def readBytes (n : Nat) (input : List Nat) : Outcome (List Nat × List Nat) :=
  if n ≤ input.length then .ok (input.take n, input.drop n) else .error .Io

/-- `read_u16_le` over a byte list. -/
def readU16le (input : List Nat) : Outcome (Nat × List Nat) :=
  match input with
  | b0 :: b1 :: rest => .ok (b0 + 256 * b1, rest)
  | _ => .error .Io

/-- `read_u32_le` over a byte list. -/
def readU32le (input : List Nat) : Outcome (Nat × List Nat) :=
  match input with
  | b0 :: b1 :: b2 :: b3 :: rest =>
      .ok (b0 + 256 * b1 + 65536 * b2 + 16777216 * b3, rest)
  | _ => .error .Io

/-- `read_u64_le` over a byte list. -/
def readU64le (input : List Nat) : Outcome (Nat × List Nat) :=
  match input with
  | b0 :: b1 :: b2 :: b3 :: b4 :: b5 :: b6 :: b7 :: rest =>
      .ok (b0 + 256 * b1 + 65536 * b2 + 16777216 * b3
           + 4294967296 * b4 + 1099511627776 * b5
           + 281474976710656 * b6 + 72057594037927936 * b7, rest)
  | _ => .error .Io

/-- `read_i32_le`: read a `u32` and reinterpret its bit pattern. -/
def readI32le (input : List Nat) : Outcome (Int × List Nat) := do
  let (w, rest) ← readU32le input
  return (asI32 w, rest)

/-- `read_i64_le`: read a `u64` and reinterpret its bit pattern. -/
def readI64le (input : List Nat) : Outcome (Int × List Nat) := do
  let (w, rest) ← readU64le input
  return (asI64 w, rest)

/-! ## The End of Central Directory record -/

structure EndOfCentralDirectory where
  disk_no : Nat
  start_central_dir_disk_no : Nat
  total_central_dir_entries_this_disk : Nat
  total_central_dir_entries : Nat
  central_directory_size : Nat
  central_dir_offset_on_disk : Nat
  comment : Option (List Nat)
deriving DecidableEq, Repr

/-- Signature constant of the EOCD record. -/
def EndOfCentralDirectory.signatureVal : Nat := 0x06054B50

/-- Bias of the generated `min_len` (`min_len_bias`): signature plus
comment-length field. -/
def EndOfCentralDirectory.min_len_bias : Nat := 4 + 2

/-- The `min_len` generated by the `minimum_length(biased)` attribute macro:
the bias plus the widths of the fixed-size integer fields. -/
def EndOfCentralDirectory.min_len : Nat :=
  EndOfCentralDirectory.min_len_bias + (2 + 2 + 2 + 2 + 4 + 4)

/-- `EndOfCentralDirectory::write`. -/
def EndOfCentralDirectory.write (r : EndOfCentralDirectory) : List Nat :=
  u32leBytes EndOfCentralDirectory.signatureVal
  ++ u16leBytes r.disk_no
  ++ u16leBytes r.start_central_dir_disk_no
  ++ u16leBytes r.total_central_dir_entries_this_disk
  ++ u16leBytes r.total_central_dir_entries
  ++ u32leBytes r.central_directory_size
  ++ u32leBytes r.central_dir_offset_on_disk
  ++ (match r.comment with
      | some c =>
          u16leBytes (if c.length ≤ 0xFFFF then c.length else 0xFFFF) ++ c
      | none => u16leBytes 0xFFFF)

/-- `EndOfCentralDirectory::read_after_signature`. -/
def EndOfCentralDirectory.read_after_signature (input : List Nat) :
    Outcome (EndOfCentralDirectory × List Nat) := do
  let (disk_no, input) ← readU16le input
  let (start_central_dir_disk_no, input) ← readU16le input
  let (total_central_dir_entries_this_disk, input) ← readU16le input
  let (total_central_dir_entries, input) ← readU16le input
  let (central_directory_size, input) ← readU32le input
  let (central_dir_offset_on_disk, input) ← readU32le input
  let (comment_length, input) ← readU16le input
  if comment_length = 0xFFFF then
    return ({ disk_no, start_central_dir_disk_no,
              total_central_dir_entries_this_disk, total_central_dir_entries,
              central_directory_size, central_dir_offset_on_disk,
              comment := none }, input)
  else
    let (buf, input) ← readBytes comment_length input
    return ({ disk_no, start_central_dir_disk_no,
              total_central_dir_entries_this_disk, total_central_dir_entries,
              central_directory_size, central_dir_offset_on_disk,
              comment := some buf }, input)

/-- `EndOfCentralDirectory::should_check_zip64`. -/
def EndOfCentralDirectory.should_check_zip64 (r : EndOfCentralDirectory) : Bool :=
  r.disk_no = 0xFFFF
  || r.start_central_dir_disk_no = 0xFFFF
  || r.total_central_dir_entries_this_disk = 0xFFFF
  || r.total_central_dir_entries = 0xFFFF
  || r.central_directory_size = 0xFFFFFFFF
  || r.central_dir_offset_on_disk = 0xFFFFFFFF

/-! ## The Zip64 End of Central Directory Locator record -/

structure Zip64EndOfCentralDirectoryLocator where
  disk_no : Nat
  offset_on_disk : Nat
  total_disks : Nat
deriving DecidableEq, Repr

/-- Signature constant of the Zip64 EOCD locator. -/
def Zip64EndOfCentralDirectoryLocator.signatureVal : Nat := 0x07064B50

def Zip64EndOfCentralDirectoryLocator.min_len_bias : Nat := 4

def Zip64EndOfCentralDirectoryLocator.min_len : Nat :=
  Zip64EndOfCentralDirectoryLocator.min_len_bias + (4 + 8 + 4)

/-- `Zip64EndOfCentralDirectoryLocator::write`. -/
def Zip64EndOfCentralDirectoryLocator.write
    (r : Zip64EndOfCentralDirectoryLocator) : List Nat :=
  u32leBytes Zip64EndOfCentralDirectoryLocator.signatureVal
  ++ u32leBytes r.disk_no
  ++ u64leBytes r.offset_on_disk
  ++ u32leBytes r.total_disks

/-- `Zip64EndOfCentralDirectoryLocator::read_after_signature`. -/
def Zip64EndOfCentralDirectoryLocator.read_after_signature (input : List Nat) :
    Outcome (Zip64EndOfCentralDirectoryLocator × List Nat) := do
  let (disk_no, input) ← readU32le input
  let (offset_on_disk, input) ← readU64le input
  let (total_disks, input) ← readU32le input
  return ({ disk_no, offset_on_disk, total_disks }, input)

/-! ## The Zip64 End of Central Directory record -/

structure Zip64EndOfCentralDirectory where
  creator_version : Nat
  required_version : Nat
  disk_no : Nat
  start_central_dir_disk_no : Nat
  total_central_dir_entries_this_disk : Nat
  total_central_dir_entries : Nat
  central_directory_size : Nat
  central_dir_offset_on_disk : Nat
  extensible_data_sector : List Nat
deriving DecidableEq, Repr

/-- Signature constant of the Zip64 EOCD record. -/
def Zip64EndOfCentralDirectory.signatureVal : Nat := 0x06064B50

/-- Bias (`min_len_bias`): signature (4) plus the 8-byte length field. -/
def Zip64EndOfCentralDirectory.min_len_bias : Nat := 4 + 8

/-- Generated `min_len`: bias plus fixed integer field widths (44). -/
def Zip64EndOfCentralDirectory.min_len : Nat :=
  Zip64EndOfCentralDirectory.min_len_bias + (2 + 2 + 4 + 4 + 8 + 8 + 8 + 8)

/-- The `FIXED_FIELDS_LEN` constant computed inside `read_after_signature`. -/
def Zip64EndOfCentralDirectory.fixedFieldsLen : Nat :=
  Zip64EndOfCentralDirectory.min_len - Zip64EndOfCentralDirectory.min_len_bias

/-- `Zip64EndOfCentralDirectory::write`.  The declared length is computed as
`Self::min_len() + extensible_data_sector.len()`, exactly as in the source. -/
def Zip64EndOfCentralDirectory.write (r : Zip64EndOfCentralDirectory) : List Nat :=
  u32leBytes Zip64EndOfCentralDirectory.signatureVal
  ++ u64leBytes (Zip64EndOfCentralDirectory.min_len + r.extensible_data_sector.length)
  ++ u16leBytes r.creator_version
  ++ u16leBytes r.required_version
  ++ u32leBytes r.disk_no
  ++ u32leBytes r.start_central_dir_disk_no
  ++ u64leBytes r.total_central_dir_entries_this_disk
  ++ u64leBytes r.total_central_dir_entries
  ++ u64leBytes r.central_directory_size
  ++ u64leBytes r.central_dir_offset_on_disk
  ++ r.extensible_data_sector

/-- `Zip64EndOfCentralDirectory::read_after_signature`.  The source computes
`(size - Self::min_len()).try_into().unwrap()` with `u64` arithmetic: when
`size < min_len` the subtraction overflows, which is a panic in a debug
build (wrap-around followed by an aborting huge allocation in release);
both are modelled by `.panic`. -/
def Zip64EndOfCentralDirectory.read_after_signature (input : List Nat) :
    Outcome (Zip64EndOfCentralDirectory × List Nat) := do
  let (size, input) ← readU64le input
  if size < Zip64EndOfCentralDirectory.fixedFieldsLen then
    Outcome.error .RecordTooSmall
  else if size < Zip64EndOfCentralDirectory.min_len then
    Outcome.panic
  else
    let extensible_length := size - Zip64EndOfCentralDirectory.min_len
    let (creator_version, input) ← readU16le input
    let (required_version, input) ← readU16le input
    let (disk_no, input) ← readU32le input
    let (start_central_dir_disk_no, input) ← readU32le input
    let (total_central_dir_entries_this_disk, input) ← readU64le input
    let (total_central_dir_entries, input) ← readU64le input
    let (central_directory_size, input) ← readU64le input
    let (central_dir_offset_on_disk, input) ← readU64le input
    let (extensible_data_sector, input) ← readBytes extensible_length input
    return ({ creator_version, required_version, disk_no,
              start_central_dir_disk_no, total_central_dir_entries_this_disk,
              total_central_dir_entries, central_directory_size,
              central_dir_offset_on_disk, extensible_data_sector }, input)

/-! ## The Central Directory Header record -/

structure CentralDirectoryHeader where
  creator_version : Nat
  required_version : Nat
  general_purpose_bit_flag : Nat
  compression_method : Nat
  last_mod_file_time : Nat
  last_mod_file_date : Nat
  crc32 : Nat
  compressed_size : Nat
  uncompressed_size : Nat
  file_name : List Nat
  extra_fields : List Nat
  file_comment : List Nat
  disk_number_start : Nat
  internal_attributes : Nat
  external_attributes : Nat
  local_header_relative_offset : Int
deriving DecidableEq, Repr

/-- Signature constant of a central directory header. -/
def CentralDirectoryHeader.signatureVal : Nat := 0x02014B50

def CentralDirectoryHeader.min_len_bias : Nat := 4

def CentralDirectoryHeader.min_len : Nat :=
  CentralDirectoryHeader.min_len_bias
  + (2 + 2 + 2 + 2 + 2 + 2 + 4 + 4 + 4 + 2 + 2 + 4 + 4)

/-- The capped 16-bit length field the encoder derives from an actual
variable-length field (`if len > 0xFFFF { 0xFFFF } else { len }`). -/
def cappedLen16 (n : Nat) : Nat :=
  if n > 0xFFFF then 0xFFFF else n

/-- `CentralDirectoryHeader::write`. -/
def CentralDirectoryHeader.write (r : CentralDirectoryHeader) : List Nat :=
  u32leBytes CentralDirectoryHeader.signatureVal
  ++ u16leBytes r.creator_version
  ++ u16leBytes r.required_version
  ++ u16leBytes r.general_purpose_bit_flag
  ++ u16leBytes r.compression_method
  ++ u16leBytes r.last_mod_file_time
  ++ u16leBytes r.last_mod_file_date
  ++ u32leBytes r.crc32
  ++ u32leBytes r.compressed_size
  ++ u32leBytes r.uncompressed_size
  ++ u16leBytes (cappedLen16 r.file_name.length)
  ++ u16leBytes (cappedLen16 r.extra_fields.length)
  ++ u16leBytes (cappedLen16 r.file_comment.length)
  ++ u16leBytes r.disk_number_start
  ++ u16leBytes r.internal_attributes
  ++ u32leBytes r.external_attributes
  ++ i32leBytes r.local_header_relative_offset
  ++ r.file_name
  ++ r.extra_fields
  ++ r.file_comment

/-- `CentralDirectoryHeader::read_after_signature`. -/
def CentralDirectoryHeader.read_after_signature (input : List Nat) :
    Outcome (CentralDirectoryHeader × List Nat) := do
  let (creator_version, input) ← readU16le input
  let (required_version, input) ← readU16le input
  let (general_purpose_bit_flag, input) ← readU16le input
  let (compression_method, input) ← readU16le input
  let (last_mod_file_time, input) ← readU16le input
  let (last_mod_file_date, input) ← readU16le input
  let (crc32, input) ← readU32le input
  let (compressed_size, input) ← readU32le input
  let (uncompressed_size, input) ← readU32le input
  let (file_name_length, input) ← readU16le input
  let (extra_field_length, input) ← readU16le input
  let (file_comment_length, input) ← readU16le input
  let (disk_number_start, input) ← readU16le input
  let (internal_attributes, input) ← readU16le input
  let (external_attributes, input) ← readU32le input
  let (local_header_relative_offset, input) ← readI32le input
  let (file_name, input) ← readBytes file_name_length input
  let (extra_fields, input) ← readBytes extra_field_length input
  let (file_comment, input) ← readBytes file_comment_length input
  return ({ creator_version, required_version, general_purpose_bit_flag,
            compression_method, last_mod_file_time, last_mod_file_date,
            crc32, compressed_size, uncompressed_size, file_name,
            extra_fields, file_comment, disk_number_start,
            internal_attributes, external_attributes,
            local_header_relative_offset }, input)

/-! ## The Zip64 Extended Information Extra Field record -/

structure Zip64ExtraField where
  uncompressed_size : Option Nat
  compressed_size : Option Nat
  local_header_relative_offset : Option Int
  disk_number_start : Option Nat
deriving DecidableEq, Repr

/-- Tag constant of the Zip64 extra field. -/
def Zip64ExtraField.tagVal : Nat := 0x0001

/-- `Zip64ExtraField::write` (tag, computed size, then present fields). -/
def Zip64ExtraField.write (r : Zip64ExtraField) : List Nat :=
  let size :=
    (if r.uncompressed_size.isSome then 8 else 0)
    + (if r.compressed_size.isSome then 8 else 0)
    + (if r.local_header_relative_offset.isSome then 8 else 0)
    + (if r.disk_number_start.isSome then 4 else 0)
  u16leBytes Zip64ExtraField.tagVal
  ++ u16leBytes size
  ++ (match r.uncompressed_size with
      | some v => u64leBytes v | none => [])
  ++ (match r.compressed_size with
      | some v => u64leBytes v | none => [])
  ++ (match r.local_header_relative_offset with
      | some v => i64leBytes v | none => [])
  ++ (match r.disk_number_start with
      | some v => u32leBytes v | none => [])

/-- The expected payload length `read_after_tag` computes from the
originating central-directory field values. -/
def Zip64ExtraField.expectedLength (cdir_uncompressed_size cdir_compressed_size : Nat)
    (cdir_local_header_relative_offset : Int) (cdir_disk_number_start : Nat) : Nat :=
  (if cdir_uncompressed_size = 0xFFFFFFFF then 8 else 0)
  + (if cdir_compressed_size = 0xFFFFFFFF then 8 else 0)
  + (if cdir_local_header_relative_offset = -1 then 8 else 0)
  + (if cdir_disk_number_start = 0xFFFF then 4 else 0)

/-- `Zip64ExtraField::read_after_tag`. -/
def Zip64ExtraField.read_after_tag (input : List Nat)
    (cdir_uncompressed_size cdir_compressed_size : Nat)
    (cdir_local_header_relative_offset : Int) (cdir_disk_number_start : Nat) :
    Outcome (Zip64ExtraField × List Nat) := do
  let expected_length := Zip64ExtraField.expectedLength cdir_uncompressed_size
    cdir_compressed_size cdir_local_header_relative_offset cdir_disk_number_start
  let (length, input) ← readU16le input
  if length ≠ expected_length then
    Outcome.error (.UnexpectedExtraDataLength length)
  else do
    let (uncompressed_size, input) ←
      if cdir_uncompressed_size = 0xFFFFFFFF then do
        let (v, input) ← readU64le input
        pure (some v, input)
      else pure (none, input)
    let (compressed_size, input) ←
      if cdir_compressed_size = 0xFFFFFFFF then do
        let (v, input) ← readU64le input
        pure (some v, input)
      else pure (none, input)
    let (local_header_relative_offset, input) ←
      if cdir_local_header_relative_offset = -1 then do
        let (v, input) ← readI64le input
        pure (some v, input)
      else pure (none, input)
    let (disk_number_start, input) ←
      if cdir_disk_number_start = 0xFFFF then do
        let (v, input) ← readU32le input
        pure (some v, input)
      else pure (none, input)
    return ({ uncompressed_size, compressed_size,
              local_header_relative_offset, disk_number_start }, input)

/-! ## Seekable byte-stream model used by `lib.rs`

A `Cursor` is a seekable byte stream together with a log of the read and
write operations performed on it (the log lets theorems speak about which
bytes an operation touched). -/

/-- One logged I/O access: which position it started at and how many bytes
it covered.  Seeks are not logged; only data accesses are. -/
inductive IoEvent where
  | read (pos len : Nat)
  | write (pos len : Nat)
deriving DecidableEq, Repr

structure Cursor where
  data : List Nat
  pos : Nat
  events : List IoEvent
deriving DecidableEq, Repr

/-- Absolute seek (`SeekFrom::Start`). -/
def Cursor.seekStart (c : Cursor) (off : Nat) : Cursor :=
  { c with pos := off }

/-- Relative seek (`SeekFrom::Current`).  Seeking before byte 0 is an I/O
error, as for `std::fs::File` and `std::io::Cursor`; on success the new
absolute position is returned. -/
def Cursor.seekCur (c : Cursor) (delta : Int) : Option (Nat × Cursor) :=
  if (c.pos : Int) + delta < 0 then none
  else
    let newPos := ((c.pos : Int) + delta).toNat
    some (newPos, { c with pos := newPos })

/-- `read_exact n`: consume exactly `n` bytes from the current position or
fail (short read). -/
def Cursor.readExact (c : Cursor) (n : Nat) : Option (List Nat × Cursor) :=
  if c.pos + n ≤ c.data.length then
    some ((c.data.drop c.pos).take n,
          { c with pos := c.pos + n, events := c.events ++ [.read c.pos n] })
  else none

/-- Overwrite `bs.length` bytes at position `pos` of `data`, zero-padding
if the write starts past the end (file-hole semantics). -/
def overwriteAt (data : List Nat) (pos : Nat) (bs : List Nat) : List Nat :=
  data.take pos ++ List.replicate (pos - data.length) 0
  ++ bs ++ data.drop (pos + bs.length)

/-- `write_all`: write the bytes at the current position in place. -/
def Cursor.writeAll (c : Cursor) (bs : List Nat) : Cursor :=
  { data := overwriteAt c.data c.pos bs,
    pos := c.pos + bs.length,
    events := c.events ++ [.write c.pos bs.length] }

/-- `lookback_for_signature` from `lib.rs`: read a 4-byte little-endian
word; stop (found) on a match; otherwise seek 5 bytes back and, if the new
location is exactly 0, stop (not found), else repeat. -/
def lookback_for_signature (c : Cursor) (signature : Nat) :
    Except ZmxError Bool × Cursor :=
  match h : c.readExact 4 with
  | none => (.error .Io, c)
  | some (bs, c1) =>
    if leValue bs = signature then (.ok true, c1)
    else
      match h2 : c1.seekCur (-5) with
      | none => (.error .Io, c1)
      | some (newLoc, c2) =>
        if h0 : newLoc = 0 then (.ok false, c2)
        else lookback_for_signature c2 signature
termination_by c.pos
decreasing_by
  simp only [Cursor.readExact, Cursor.seekCur] at h h2
  split at h
  · cases h
    split at h2
    · cases h2
    · cases h2
      simp_all
  · cases h

instance {ε α : Type} [DecidableEq ε] [DecidableEq α] : DecidableEq (Except ε α) :=
  fun x y =>
    match x, y with
    | .ok a, .ok b =>
        if h : a = b then isTrue (by rw [h])
        else isFalse (by intro hc; cases hc; exact h rfl)
    | .error e, .error f =>
        if h : e = f then isTrue (by rw [h])
        else isFalse (by intro hc; cases hc; exact h rfl)
    | .ok _, .error _ => isFalse (by intro hc; cases hc)
    | .error _, .ok _ => isFalse (by intro hc; cases hc)

/-- Result of one patcher call: the returned value, the final stream
contents and the logged accesses. -/
structure RunResult where
  result : Except ZmxError Unit
  data : List Nat
  events : List IoEvent
deriving DecidableEq, Repr

/-- The itemized relative seek between the creator-version field and the
external-attributes field, exactly as written in both patch functions. -/
def cdhInterveningFieldsLen : Int :=
  2 + 2 + 2 + 2 + 2 + 4 + 4 + 4 + 2 + 2 + 2 + 2 + 2

/-- `zip_make_executable` from `lib.rs`. -/
def zip_make_executable (data : List Nat) (entry_header_offset : Nat) : RunResult :=
  let c := Cursor.seekStart ⟨data, 0, []⟩ entry_header_offset
  match c.readExact 4 with
  | none => ⟨.error .Io, c.data, c.events⟩
  | some (sigBytes, c) =>
  if leValue sigBytes ≠ CentralDirectoryHeader.signatureVal then
    ⟨.error .IncorrectSignature, c.data, c.events⟩
  else
  match c.readExact 2 with
  | none => ⟨.error .Io, c.data, c.events⟩
  | some (cvBytes, c) =>
  let creator_version := (leValue cvBytes &&& 0x00FF) ||| 0x0300
  match c.seekCur (-2) with
  | none => ⟨.error .Io, c.data, c.events⟩
  | some (_, c) =>
  let c := c.writeAll (u16leBytes creator_version)
  match c.seekCur cdhInterveningFieldsLen with
  | none => ⟨.error .Io, c.data, c.events⟩
  | some (_, c) =>
  match c.readExact 4 with
  | none => ⟨.error .Io, c.data, c.events⟩
  | some (eaBytes, c) =>
  let ea0 := (leValue eaBytes &&& ((0o170000 <<< 16) ^^^ 0xFFFFFFFF))
             ||| (0o100000 <<< 16)
  let ea1 := ea0 ||| (0o000111 <<< 16)
  match c.seekCur (-4) with
  | none => ⟨.error .Io, c.data, c.events⟩
  | some (_, c) =>
  let c := c.writeAll (u32leBytes ea1)
  ⟨.ok (), c.data, c.events⟩

/-- `zip_make_not_executable` from `lib.rs`. -/
def zip_make_not_executable (data : List Nat) (entry_header_offset : Nat) : RunResult :=
  let c := Cursor.seekStart ⟨data, 0, []⟩ entry_header_offset
  match c.readExact 4 with
  | none => ⟨.error .Io, c.data, c.events⟩
  | some (sigBytes, c) =>
  if leValue sigBytes ≠ CentralDirectoryHeader.signatureVal then
    ⟨.error .IncorrectSignature, c.data, c.events⟩
  else
  match c.readExact 2 with
  | none => ⟨.error .Io, c.data, c.events⟩
  | some (cvBytes, c) =>
  if (leValue cvBytes &&& 0xFF00) ≠ 0x0300 then
    ⟨.ok (), c.data, c.events⟩
  else
  match c.seekCur cdhInterveningFieldsLen with
  | none => ⟨.error .Io, c.data, c.events⟩
  | some (_, c) =>
  match c.readExact 4 with
  | none => ⟨.error .Io, c.data, c.events⟩
  | some (eaBytes, c) =>
  let ea := leValue eaBytes
  if (ea &&& (0o000111 <<< 16)) ≠ 0 then
    match c.seekCur (-4) with
    | none => ⟨.error .Io, c.data, c.events⟩
    | some (_, c) =>
    let c := c.writeAll (u32leBytes (ea &&& (0xFFFFFFFF ^^^ (0o000111 <<< 16))))
    ⟨.ok (), c.data, c.events⟩
  else
    ⟨.ok (), c.data, c.events⟩

/-- Total number of bytes covered by write events. -/
def bytesWritten (events : List IoEvent) : Nat :=
  events.foldr (fun e acc => match e with | .write _ n => n + acc | .read _ _ => acc) 0

/-- Whether some read access happens after some write access. -/
def readAfterWrite (events : List IoEvent) : Bool :=
  match events with
  | [] => false
  | .write _ _ :: rest => rest.any (fun e => match e with | .read _ _ => true | _ => false)
                          || readAfterWrite rest
  | .read _ _ :: rest => readAfterWrite rest

/-! ## Helper lemmas: outcomes and byte-order primitives -/

@[simp] theorem Outcome.ok_bind {α β : Type} (a : α) (f : α → Outcome β) :
    (Outcome.ok a : Outcome α) >>= f = f a := rfl

@[simp] theorem Outcome.error_bind {α β : Type} (e : ZmxError) (f : α → Outcome β) :
    (Outcome.error e : Outcome α) >>= f = .error e := rfl

@[simp] theorem Outcome.panic_bind {α β : Type} (f : α → Outcome β) :
    (Outcome.panic : Outcome α) >>= f = .panic := rfl

@[simp] theorem Outcome.pure_eq_ok {α : Type} (a : α) :
    (pure a : Outcome α) = .ok a := rfl

@[simp] theorem length_u16leBytes (v : Nat) : (u16leBytes v).length = 2 := rfl

@[simp] theorem length_u32leBytes (v : Nat) : (u32leBytes v).length = 4 := rfl

@[simp] theorem length_u64leBytes (v : Nat) : (u64leBytes v).length = 8 := rfl

theorem readU16le_append (v : Nat) (rest : List Nat) :
    readU16le (u16leBytes v ++ rest) = .ok (v % 65536, rest) := by
  simp only [u16leBytes, List.cons_append, List.nil_append, readU16le]
  refine congrArg _ (Prod.ext ?_ rfl)
  show v % 256 + 256 * (v / 256 % 256) = v % 65536
  omega

theorem readU32le_append (v : Nat) (rest : List Nat) :
    readU32le (u32leBytes v ++ rest) = .ok (v % 4294967296, rest) := by
  simp only [u32leBytes, List.cons_append, List.nil_append, readU32le]
  refine congrArg _ (Prod.ext ?_ rfl)
  show v % 256 + 256 * (v / 256 % 256) + 65536 * (v / 65536 % 256)
       + 16777216 * (v / 16777216 % 256) = v % 4294967296
  omega

theorem readU64le_append (v : Nat) (rest : List Nat) :
    readU64le (u64leBytes v ++ rest) = .ok (v % 18446744073709551616, rest) := by
  simp only [u64leBytes, List.cons_append, List.nil_append, readU64le]
  refine congrArg _ (Prod.ext ?_ rfl)
  show v % 256 + 256 * (v / 256 % 256) + 65536 * (v / 65536 % 256)
       + 16777216 * (v / 16777216 % 256) + 4294967296 * (v / 4294967296 % 256)
       + 1099511627776 * (v / 1099511627776 % 256)
       + 281474976710656 * (v / 281474976710656 % 256)
       + 72057594037927936 * (v / 72057594037927936 % 256)
       = v % 18446744073709551616
  omega

theorem asI32_round (v : Int) (h1 : -2147483648 ≤ v) (h2 : v < 2147483648) :
    asI32 (v % 4294967296).toNat = v := by
  unfold asI32
  split <;> omega

theorem asI64_round (v : Int) (h1 : -9223372036854775808 ≤ v)
    (h2 : v < 9223372036854775808) :
    asI64 (v % 18446744073709551616).toNat = v := by
  unfold asI64
  split <;> omega

theorem readI32le_append (v : Int) (rest : List Nat)
    (h1 : -2147483648 ≤ v) (h2 : v < 2147483648) :
    readI32le (i32leBytes v ++ rest) = .ok (v, rest) := by
  rw [readI32le, i32leBytes, readU32le_append]
  have hlt : (v % 4294967296).toNat < 4294967296 := by omega
  simp only [Outcome.ok_bind, Nat.mod_eq_of_lt hlt, asI32_round v h1 h2,
    Outcome.pure_eq_ok]

theorem readI64le_append (v : Int) (rest : List Nat)
    (h1 : -9223372036854775808 ≤ v) (h2 : v < 9223372036854775808) :
    readI64le (i64leBytes v ++ rest) = .ok (v, rest) := by
  rw [readI64le, i64leBytes, readU64le_append]
  have hlt : (v % 18446744073709551616).toNat < 18446744073709551616 := by omega
  simp only [Outcome.ok_bind, Nat.mod_eq_of_lt hlt, asI64_round v h1 h2,
    Outcome.pure_eq_ok]

theorem readBytes_append (c rest : List Nat) :
    readBytes c.length (c ++ rest) = .ok (c, rest) := by
  simp [readBytes, List.take_left, List.drop_left]

/-! ## Helper lemmas: slices and in-place overwrites -/

/-- The `n` bytes of `data` starting at `pos`. -/
def byteSlice (data : List Nat) (pos n : Nat) : List Nat :=
  (data.drop pos).take n

theorem length_byteSlice (data : List Nat) (pos n : Nat) (h : pos + n ≤ data.length) :
    (byteSlice data pos n).length = n := by
  simp only [byteSlice, List.length_take, List.length_drop]
  omega

theorem getElem?_byteSlice (data : List Nat) (pos n i : Nat) :
    (byteSlice data pos n)[i]? = if i < n then data[pos + i]? else none := by
  unfold byteSlice
  by_cases h : i < n
  · rw [List.getElem?_take_of_lt h, List.getElem?_drop, if_pos h]
  · rw [if_neg h, List.getElem?_eq_none]
    simp only [List.length_take, List.length_drop]
    omega

theorem overwriteAt_eq_of_le (data bs : List Nat) (pos : Nat) (h : pos ≤ data.length) :
    overwriteAt data pos bs = data.take pos ++ bs ++ data.drop (pos + bs.length) := by
  unfold overwriteAt
  rw [Nat.sub_eq_zero_of_le h]
  simp

theorem length_overwriteAt (data bs : List Nat) (pos : Nat)
    (h : pos + bs.length ≤ data.length) :
    (overwriteAt data pos bs).length = data.length := by
  rw [overwriteAt_eq_of_le data bs pos (by omega)]
  simp only [List.length_append, List.length_take, List.length_drop]
  omega

theorem getElem?_overwriteAt (data bs : List Nat) (pos i : Nat)
    (h : pos + bs.length ≤ data.length) :
    (overwriteAt data pos bs)[i]? =
      if pos ≤ i ∧ i < pos + bs.length then bs[i - pos]? else data[i]? := by
  rw [overwriteAt_eq_of_le data bs pos (by omega)]
  have hlt : (data.take pos).length = pos := by
    simp only [List.length_take]
    omega
  rw [List.append_assoc, List.getElem?_append, hlt]
  by_cases h1 : i < pos
  · rw [if_pos h1, List.getElem?_take_of_lt h1, if_neg (by omega)]
  · rw [if_neg h1, List.getElem?_append]
    by_cases h2 : i < pos + bs.length
    · rw [if_pos (by omega), if_pos ⟨by omega, h2⟩]
    · rw [if_neg (by omega), if_neg (by omega), List.getElem?_drop]
      refine congrArg _ ?_
      omega

theorem byteSlice_overwriteAt_self (data bs : List Nat) (pos : Nat)
    (h : pos + bs.length ≤ data.length) :
    byteSlice (overwriteAt data pos bs) pos bs.length = bs := by
  apply List.ext_getElem?
  intro i
  rw [getElem?_byteSlice]
  by_cases hi : i < bs.length
  · rw [if_pos hi, getElem?_overwriteAt data bs pos (pos + i) h,
      if_pos ⟨by omega, by omega⟩]
    refine congrArg _ ?_
    omega
  · rw [if_neg hi, List.getElem?_eq_none (by omega)]

theorem byteSlice_overwriteAt_disjoint (data bs : List Nat) (pos q m : Nat)
    (h : pos + bs.length ≤ data.length)
    (hd : q + m ≤ pos ∨ pos + bs.length ≤ q) :
    byteSlice (overwriteAt data pos bs) q m = byteSlice data q m := by
  apply List.ext_getElem?
  intro i
  rw [getElem?_byteSlice, getElem?_byteSlice]
  by_cases hi : i < m
  · rw [if_pos hi, if_pos hi, getElem?_overwriteAt data bs pos (q + i) h,
      if_neg (by omega)]
  · rw [if_neg hi, if_neg hi]

theorem overwriteAt_overwriteAt (data bs bs' : List Nat) (pos : Nat)
    (h : pos + bs.length ≤ data.length) (hlen : bs'.length = bs.length) :
    overwriteAt (overwriteAt data pos bs') pos bs = overwriteAt data pos bs := by
  have h' : pos + bs'.length ≤ data.length := by omega
  have hlen2 : (overwriteAt data pos bs').length = data.length :=
    length_overwriteAt data bs' pos h'
  apply List.ext_getElem?
  intro i
  rw [getElem?_overwriteAt _ bs pos i (by omega),
    getElem?_overwriteAt data bs pos i h]
  by_cases hi : pos ≤ i ∧ i < pos + bs.length
  · rw [if_pos hi, if_pos hi]
  · rw [if_neg hi, if_neg hi, getElem?_overwriteAt data bs' pos i h',
      if_neg (by omega)]

theorem overwriteAt_comm (data b1 b2 : List Nat) (p1 p2 : Nat)
    (h1 : p1 + b1.length ≤ p2) (h2 : p2 + b2.length ≤ data.length) :
    overwriteAt (overwriteAt data p2 b2) p1 b1
      = overwriteAt (overwriteAt data p1 b1) p2 b2 := by
  have hL2 : (overwriteAt data p2 b2).length = data.length :=
    length_overwriteAt data b2 p2 h2
  have hL1 : (overwriteAt data p1 b1).length = data.length :=
    length_overwriteAt data b1 p1 (by omega)
  apply List.ext_getElem?
  intro i
  rw [getElem?_overwriteAt (overwriteAt data p2 b2) b1 p1 i (by omega),
    getElem?_overwriteAt (overwriteAt data p1 b1) b2 p2 i (by omega),
    getElem?_overwriteAt data b2 p2 i h2,
    getElem?_overwriteAt data b1 p1 i (by omega)]
  by_cases hc1 : p1 ≤ i ∧ i < p1 + b1.length
  · have hc2 : ¬(p2 ≤ i ∧ i < p2 + b2.length) := by omega
    rw [if_pos hc1, if_neg hc2, if_pos hc1]
  · rw [if_neg hc1]
    by_cases hc2 : p2 ≤ i ∧ i < p2 + b2.length
    · rw [if_pos hc2, if_pos hc2]
    · rw [if_neg hc2, if_neg hc2, if_neg hc1]

theorem overwriteAt_byteSlice_id (data bs : List Nat) (pos n : Nat)
    (h : pos + n ≤ data.length) (hb : byteSlice data pos n = bs) :
    overwriteAt data pos bs = data := by
  have hlen : bs.length = n := by rw [← hb]; exact length_byteSlice data pos n h
  apply List.ext_getElem?
  intro i
  rw [getElem?_overwriteAt data bs pos i (by omega)]
  by_cases hi : pos ≤ i ∧ i < pos + bs.length
  · rw [if_pos hi, ← hb, getElem?_byteSlice, if_pos (by omega)]
    refine congrArg _ ?_
    omega
  · rw [if_neg hi]

/-! ## Helper lemmas: bit manipulation -/

theorem nat_or_and_distrib (a b c : Nat) :
    (a ||| b) &&& c = (a &&& c) ||| (b &&& c) := by
  apply Nat.eq_of_testBit_eq
  intro i
  simp only [Nat.testBit_and, Nat.testBit_or]
  cases a.testBit i <;> cases b.testBit i <;> cases c.testBit i <;> rfl

theorem nat_and_or_mask_idem (x m h : Nat) :
    (((x &&& m) ||| h) &&& m) ||| h = (x &&& m) ||| h := by
  apply Nat.eq_of_testBit_eq
  intro i
  simp only [Nat.testBit_and, Nat.testBit_or]
  cases x.testBit i <;> cases m.testBit i <;> cases h.testBit i <;> rfl

theorem nat_and_or_or_mask_idem (x m h l : Nat) :
    (((((x &&& m) ||| h) ||| l) &&& m) ||| h) ||| l = (((x &&& m) ||| h) ||| l) := by
  apply Nat.eq_of_testBit_eq
  intro i
  simp only [Nat.testBit_and, Nat.testBit_or]
  cases x.testBit i <;> cases m.testBit i <;> cases h.testBit i <;>
    cases l.testBit i <;> rfl

theorem nat_and_and_self (x a : Nat) : (x &&& a) &&& a = x &&& a := by
  apply Nat.eq_of_testBit_eq
  intro i
  simp only [Nat.testBit_and]
  cases x.testBit i <;> cases a.testBit i <;> rfl

/-- A value below `2^32` split by two masks that cover all 32 bits. -/
theorem nat_split_by_mask (a x y : Nat) (ha : a < 4294967296)
    (hxy : x ||| y = 4294967295) :
    (a &&& x) ||| (a &&& y) = a := by
  apply Nat.eq_of_testBit_eq
  intro i
  have hbit := congrArg (fun t => t.testBit i) hxy
  simp only [Nat.testBit_or] at hbit
  simp only [Nat.testBit_and, Nat.testBit_or]
  by_cases hi : i < 32
  · have h32 : (4294967295 : Nat).testBit i = true := by
      have he : (4294967295 : Nat) = 2 ^ 32 - 1 := by norm_num
      rw [he, Nat.testBit_two_pow_sub_one]
      simp [hi]
    rw [h32] at hbit
    cases hx : x.testBit i <;> cases hy : y.testBit i <;>
      cases ha2 : a.testBit i <;> simp_all
  · have hz : a.testBit i = false := by
      apply Nat.testBit_lt_two_pow
      calc a < 4294967296 := ha
        _ = 2 ^ 32 := by norm_num
        _ ≤ 2 ^ i := Nat.pow_le_pow_right (by omega) (by omega)
    rw [hz]
    simp

/-! ## Evaluation lemmas for cursor operations -/

theorem readExact_eval (data : List Nat) (p : Nat) (ev : List IoEvent) (n : Nat)
    (h : p + n ≤ data.length) :
    Cursor.readExact ⟨data, p, ev⟩ n
      = some (byteSlice data p n, ⟨data, p + n, ev ++ [.read p n]⟩) := by
  simp [Cursor.readExact, byteSlice, h]

theorem readExact_fail (data : List Nat) (p : Nat) (ev : List IoEvent) (n : Nat)
    (h : ¬(p + n ≤ data.length)) :
    Cursor.readExact ⟨data, p, ev⟩ n = none := by
  simp [Cursor.readExact, h]

theorem writeAll_eval (data : List Nat) (p : Nat) (ev : List IoEvent) (bs : List Nat) :
    Cursor.writeAll ⟨data, p, ev⟩ bs
      = ⟨overwriteAt data p bs, p + bs.length, ev ++ [.write p bs.length]⟩ := rfl

theorem seekCur_back2 (data : List Nat) (ev : List IoEvent) (p : Nat) :
    Cursor.seekCur ⟨data, p + 2, ev⟩ (-2) = some (p, ⟨data, p, ev⟩) := by
  simp only [Cursor.seekCur]
  rw [if_neg (by push_cast; omega)]
  have he : (((p + 2 : Nat) : Int) + (-2)).toNat = p := by omega
  simp only [he]

theorem seekCur_back4 (data : List Nat) (ev : List IoEvent) (p : Nat) :
    Cursor.seekCur ⟨data, p + 4, ev⟩ (-4) = some (p, ⟨data, p, ev⟩) := by
  simp only [Cursor.seekCur]
  rw [if_neg (by push_cast; omega)]
  have he : (((p + 4 : Nat) : Int) + (-4)).toNat = p := by omega
  simp only [he]

theorem seekCur_skip32 (data : List Nat) (ev : List IoEvent) (p : Nat) :
    Cursor.seekCur ⟨data, p, ev⟩ cdhInterveningFieldsLen
      = some (p + 32, ⟨data, p + 32, ev⟩) := by
  simp only [Cursor.seekCur, cdhInterveningFieldsLen]
  rw [if_neg (by push_cast; omega)]
  have he : (((p : Nat) : Int)
      + (2 + 2 + 2 + 2 + 2 + 4 + 4 + 4 + 2 + 2 + 2 + 2 + 2)).toNat = p + 32 := by
    omega
  simp only [he]

/-- Full characterization of `zip_make_executable` on an arbitrary stream. -/
theorem zip_make_executable_eq (data : List Nat) (off : Nat) :
    zip_make_executable data off =
      if off + 4 ≤ data.length then
        if leValue (byteSlice data off 4) = CentralDirectoryHeader.signatureVal then
          if off + 6 ≤ data.length then
            if off + 42 ≤ data.length then
              ⟨.ok (),
               overwriteAt
                 (overwriteAt data (off + 4)
                   (u16leBytes ((leValue (byteSlice data (off + 4) 2) &&& 0x00FF) ||| 0x0300)))
                 (off + 38)
                 (u32leBytes
                   (((leValue (byteSlice data (off + 38) 4)
                      &&& ((0o170000 <<< 16) ^^^ 0xFFFFFFFF))
                     ||| (0o100000 <<< 16)) ||| (0o000111 <<< 16))),
               [.read off 4, .read (off + 4) 2, .write (off + 4) 2,
                .read (off + 38) 4, .write (off + 38) 4]⟩
            else
              ⟨.error .Io,
               overwriteAt data (off + 4)
                 (u16leBytes ((leValue (byteSlice data (off + 4) 2) &&& 0x00FF) ||| 0x0300)),
               [.read off 4, .read (off + 4) 2, .write (off + 4) 2]⟩
          else ⟨.error .Io, data, [.read off 4]⟩
        else ⟨.error .IncorrectSignature, data, [.read off 4]⟩
      else ⟨.error .Io, data, []⟩ := by
  unfold zip_make_executable
  simp only [Cursor.seekStart]
  by_cases h4 : off + 4 ≤ data.length
  · rw [readExact_eval data off [] 4 h4, if_pos h4]
    simp only [List.nil_append]
    by_cases hsig : leValue (byteSlice data off 4) = CentralDirectoryHeader.signatureVal
    · rw [if_pos hsig, if_neg (by simpa using hsig)]
      by_cases h6 : off + 6 ≤ data.length
      · rw [if_pos h6, readExact_eval data (off + 4) _ 2 (by omega)]
        simp only []
        rw [show off + 4 + 2 = (off + 4) + 2 from rfl, seekCur_back2]
        simp only []
        rw [writeAll_eval]
        simp only [length_u16leBytes]
        set cv1 := (leValue (byteSlice data (off + 4) 2) &&& 0x00FF) ||| 0x0300 with hcv
        have hlen1 : (overwriteAt data (off + 4) (u16leBytes cv1)).length = data.length :=
          length_overwriteAt data (u16leBytes cv1) (off + 4) (by simp; omega)
        rw [seekCur_skip32]
        simp only []
        have h38 : off + 4 + 2 + 32 = off + 38 := by omega
        rw [h38]
        by_cases h42 : off + 42 ≤ data.length
        · rw [if_pos h42,
            readExact_eval _ (off + 38) _ 4 (by rw [hlen1]; omega)]
          simp only []
          rw [show off + 38 + 4 = (off + 38) + 4 from rfl, seekCur_back4]
          simp only []
          rw [writeAll_eval]
          simp only [length_u32leBytes]
          rw [byteSlice_overwriteAt_disjoint data (u16leBytes cv1) (off + 4) (off + 38) 4
            (by simp only [length_u16leBytes]; omega)
            (by simp only [length_u16leBytes]; omega)]
          rfl
        · rw [readExact_fail _ (off + 38) _ 4 (by rw [hlen1]; omega), if_neg h42]
          simp
      · rw [if_neg h6, readExact_fail data (off + 4) _ 2 (by omega)]
    · rw [if_neg hsig, if_pos (by simpa using hsig)]
  · rw [readExact_fail data off [] 4 h4, if_neg h4]

/-- Full characterization of `zip_make_not_executable` on an arbitrary stream. -/
theorem zip_make_not_executable_eq (data : List Nat) (off : Nat) :
    zip_make_not_executable data off =
      if off + 4 ≤ data.length then
        if leValue (byteSlice data off 4) = CentralDirectoryHeader.signatureVal then
          if off + 6 ≤ data.length then
            if (leValue (byteSlice data (off + 4) 2) &&& 0xFF00) = 0x0300 then
              if off + 42 ≤ data.length then
                if (leValue (byteSlice data (off + 38) 4) &&& (0o000111 <<< 16)) ≠ 0 then
                  ⟨.ok (),
                   overwriteAt data (off + 38)
                     (u32leBytes (leValue (byteSlice data (off + 38) 4)
                        &&& (0xFFFFFFFF ^^^ (0o000111 <<< 16)))),
                   [.read off 4, .read (off + 4) 2, .read (off + 38) 4,
                    .write (off + 38) 4]⟩
                else
                  ⟨.ok (), data,
                   [.read off 4, .read (off + 4) 2, .read (off + 38) 4]⟩
              else ⟨.error .Io, data, [.read off 4, .read (off + 4) 2]⟩
            else ⟨.ok (), data, [.read off 4, .read (off + 4) 2]⟩
          else ⟨.error .Io, data, [.read off 4]⟩
        else ⟨.error .IncorrectSignature, data, [.read off 4]⟩
      else ⟨.error .Io, data, []⟩ := by
  unfold zip_make_not_executable
  simp only [Cursor.seekStart]
  by_cases h4 : off + 4 ≤ data.length
  · rw [readExact_eval data off [] 4 h4, if_pos h4]
    simp only [List.nil_append]
    by_cases hsig : leValue (byteSlice data off 4) = CentralDirectoryHeader.signatureVal
    · rw [if_pos hsig, if_neg (by simpa using hsig)]
      by_cases h6 : off + 6 ≤ data.length
      · rw [if_pos h6, readExact_eval data (off + 4) _ 2 (by omega)]
        simp only []
        by_cases hux : (leValue (byteSlice data (off + 4) 2) &&& 0xFF00) = 0x0300
        · rw [if_pos hux, if_neg (by simpa using hux)]
          rw [seekCur_skip32]
          simp only []
          have h38 : off + 4 + 2 + 32 = off + 38 := by omega
          rw [h38]
          by_cases h42 : off + 42 ≤ data.length
          · rw [if_pos h42, readExact_eval data (off + 38) _ 4 (by omega)]
            simp only []
            by_cases hbits : (leValue (byteSlice data (off + 38) 4)
                &&& (0o000111 <<< 16)) ≠ 0
            · rw [if_pos hbits, if_pos hbits]
              rw [show off + 38 + 4 = (off + 38) + 4 from rfl, seekCur_back4]
              simp only []
              rw [writeAll_eval]
              rfl
            · rw [if_neg hbits, if_neg hbits]
              rfl
          · rw [readExact_fail data (off + 38) _ 4 (by omega), if_neg h42]
            rfl
        · rw [if_neg hux, if_pos (by simpa using hux)]
          rfl
      · rw [if_neg h6, readExact_fail data (off + 4) _ 2 (by omega)]
    · rw [if_neg hsig, if_pos (by simpa using hsig)]
  · rw [readExact_fail data off [] 4 h4, if_neg h4]

/-! ## Round-trip helper lemmas -/

/-- In-memory validity of an EOCD record: every fixed integer field fits
its on-wire width. -/
def EndOfCentralDirectory.Valid (r : EndOfCentralDirectory) : Prop :=
  r.disk_no < 65536 ∧ r.start_central_dir_disk_no < 65536 ∧
  r.total_central_dir_entries_this_disk < 65536 ∧
  r.total_central_dir_entries < 65536 ∧
  r.central_directory_size < 4294967296 ∧
  r.central_dir_offset_on_disk < 4294967296

theorem readBytes_self (c : List Nat) : readBytes c.length c = .ok (c, []) := by
  simp [readBytes]

theorem readU16le_bare (v : Nat) :
    readU16le (u16leBytes v) = .ok (v % 65536, []) := by
  have h := readU16le_append v []
  rwa [List.append_nil] at h

theorem eocd_write_read (r : EndOfCentralDirectory) (hv : r.Valid)
    (hc : r.comment = none ∨ ∃ c, r.comment = some c ∧ c.length < 65535) :
    EndOfCentralDirectory.read_after_signature (r.write.drop 4) = .ok (r, []) := by
  obtain ⟨d1, d2, d3, d4, d5, d6, com⟩ := r
  obtain ⟨hv1, hv2, hv3, hv4, hv5, hv6⟩ := hv
  simp only [EndOfCentralDirectory.Valid] at hv1 hv2 hv3 hv4 hv5 hv6
  unfold EndOfCentralDirectory.write EndOfCentralDirectory.read_after_signature
  simp only [List.append_assoc]
  rw [List.drop_left' (by simp : (u32leBytes EndOfCentralDirectory.signatureVal).length = 4)]
  have e1 : d1 % 65536 = d1 := Nat.mod_eq_of_lt (by exact hv1)
  have e2 : d2 % 65536 = d2 := Nat.mod_eq_of_lt (by exact hv2)
  have e3 : d3 % 65536 = d3 := Nat.mod_eq_of_lt (by exact hv3)
  have e4 : d4 % 65536 = d4 := Nat.mod_eq_of_lt (by exact hv4)
  have e5 : d5 % 4294967296 = d5 := Nat.mod_eq_of_lt (by exact hv5)
  have e6 : d6 % 4294967296 = d6 := Nat.mod_eq_of_lt (by exact hv6)
  simp only [readU16le_append, readU32le_append, Outcome.ok_bind,
    e1, e2, e3, e4, e5, e6]
  rcases hc with hnone | ⟨c, hsome, hlen⟩
  · simp only at hnone
    subst hnone
    rw [readU16le_bare]
    simp only [Outcome.ok_bind]
    norm_num
  · simp only at hsome
    subst hsome
    simp only []
    rw [if_pos (by omega), readU16le_append]
    simp only [Outcome.ok_bind]
    rw [Nat.mod_eq_of_lt (by omega), if_neg (by omega)]
    rw [readBytes_self]
    simp

theorem readU32le_bare (v : Nat) :
    readU32le (u32leBytes v) = .ok (v % 4294967296, []) := by
  have h := readU32le_append v []
  rwa [List.append_nil] at h

theorem readU64le_bare (v : Nat) :
    readU64le (u64leBytes v) = .ok (v % 18446744073709551616, []) := by
  have h := readU64le_append v []
  rwa [List.append_nil] at h

/-- In-memory validity of a Zip64 EOCD locator record. -/
def Zip64EndOfCentralDirectoryLocator.Valid (r : Zip64EndOfCentralDirectoryLocator) : Prop :=
  r.disk_no < 4294967296 ∧ r.offset_on_disk < 18446744073709551616 ∧
  r.total_disks < 4294967296

theorem zip64_locator_write_read (r : Zip64EndOfCentralDirectoryLocator)
    (hv : r.Valid) :
    Zip64EndOfCentralDirectoryLocator.read_after_signature (r.write.drop 4)
      = .ok (r, []) := by
  obtain ⟨d1, d2, d3⟩ := r
  obtain ⟨hv1, hv2, hv3⟩ := hv
  simp only [Zip64EndOfCentralDirectoryLocator.Valid] at hv1 hv2 hv3
  unfold Zip64EndOfCentralDirectoryLocator.write
    Zip64EndOfCentralDirectoryLocator.read_after_signature
  simp only [List.append_assoc]
  rw [List.drop_left'
    (by simp : (u32leBytes Zip64EndOfCentralDirectoryLocator.signatureVal).length = 4)]
  have e1 : d1 % 4294967296 = d1 := Nat.mod_eq_of_lt (by exact hv1)
  have e2 : d2 % 18446744073709551616 = d2 := Nat.mod_eq_of_lt (by exact hv2)
  have e3 : d3 % 4294967296 = d3 := Nat.mod_eq_of_lt (by exact hv3)
  simp only [readU32le_append, readU64le_append, readU32le_bare, Outcome.ok_bind,
    e1, e2, e3, Outcome.pure_eq_ok]

/-- In-memory validity of a Zip64 EOCD record: fields fit their widths and
the declared total length fits in 64 bits. -/
def Zip64EndOfCentralDirectory.Valid (r : Zip64EndOfCentralDirectory) : Prop :=
  r.creator_version < 65536 ∧ r.required_version < 65536 ∧
  r.disk_no < 4294967296 ∧ r.start_central_dir_disk_no < 4294967296 ∧
  r.total_central_dir_entries_this_disk < 18446744073709551616 ∧
  r.total_central_dir_entries < 18446744073709551616 ∧
  r.central_directory_size < 18446744073709551616 ∧
  r.central_dir_offset_on_disk < 18446744073709551616 ∧
  Zip64EndOfCentralDirectory.min_len + r.extensible_data_sector.length
    < 18446744073709551616

theorem zip64_eocd_write_read (r : Zip64EndOfCentralDirectory) (hv : r.Valid) :
    Zip64EndOfCentralDirectory.read_after_signature (r.write.drop 4)
      = .ok (r, []) := by
  obtain ⟨c1, c2, d1, d2, t1, t2, sz, ofs, ext⟩ := r
  obtain ⟨hv1, hv2, hv3, hv4, hv5, hv6, hv7, hv8, hv9⟩ := hv
  simp only [Zip64EndOfCentralDirectory.Valid, Zip64EndOfCentralDirectory.min_len,
    Zip64EndOfCentralDirectory.min_len_bias] at hv1 hv2 hv3 hv4 hv5 hv6 hv7 hv8 hv9
  unfold Zip64EndOfCentralDirectory.write Zip64EndOfCentralDirectory.read_after_signature
  simp only [List.append_assoc]
  rw [List.drop_left'
    (by simp : (u32leBytes Zip64EndOfCentralDirectory.signatureVal).length = 4)]
  rw [readU64le_append]
  simp only [Outcome.ok_bind]
  have hsz : (Zip64EndOfCentralDirectory.min_len + ext.length)
      % 18446744073709551616 = 56 + ext.length := by
    simp only [Zip64EndOfCentralDirectory.min_len,
      Zip64EndOfCentralDirectory.min_len_bias] at hv9 ⊢
    omega
  have hne1 : ¬(56 + ext.length < Zip64EndOfCentralDirectory.fixedFieldsLen) := by
    simp only [Zip64EndOfCentralDirectory.fixedFieldsLen,
      Zip64EndOfCentralDirectory.min_len, Zip64EndOfCentralDirectory.min_len_bias]
    omega
  have hne2 : ¬(56 + ext.length < Zip64EndOfCentralDirectory.min_len) := by
    simp only [Zip64EndOfCentralDirectory.min_len,
      Zip64EndOfCentralDirectory.min_len_bias]
    omega
  rw [hsz, if_neg hne1, if_neg hne2]
  have hext : 56 + ext.length - Zip64EndOfCentralDirectory.min_len = ext.length := by
    simp only [Zip64EndOfCentralDirectory.min_len,
      Zip64EndOfCentralDirectory.min_len_bias]
    omega
  rw [hext]
  have e1 : c1 % 65536 = c1 := Nat.mod_eq_of_lt (by exact hv1)
  have e2 : c2 % 65536 = c2 := Nat.mod_eq_of_lt (by exact hv2)
  have e3 : d1 % 4294967296 = d1 := Nat.mod_eq_of_lt (by exact hv3)
  have e4 : d2 % 4294967296 = d2 := Nat.mod_eq_of_lt (by exact hv4)
  have e5 : t1 % 18446744073709551616 = t1 := Nat.mod_eq_of_lt (by exact hv5)
  have e6 : t2 % 18446744073709551616 = t2 := Nat.mod_eq_of_lt (by exact hv6)
  have e7 : sz % 18446744073709551616 = sz := Nat.mod_eq_of_lt (by exact hv7)
  have e8 : ofs % 18446744073709551616 = ofs := Nat.mod_eq_of_lt (by exact hv8)
  simp only [readU16le_append, readU32le_append, readU64le_append, Outcome.ok_bind,
    e1, e2, e3, e4, e5, e6, e7, e8, readBytes_self, Outcome.pure_eq_ok]

/-- In-memory validity of a central directory header: every fixed integer
field fits its on-wire width (the signed offset is in `i32` range). -/
def CentralDirectoryHeader.Valid (r : CentralDirectoryHeader) : Prop :=
  r.creator_version < 65536 ∧ r.required_version < 65536 ∧
  r.general_purpose_bit_flag < 65536 ∧ r.compression_method < 65536 ∧
  r.last_mod_file_time < 65536 ∧ r.last_mod_file_date < 65536 ∧
  r.crc32 < 4294967296 ∧ r.compressed_size < 4294967296 ∧
  r.uncompressed_size < 4294967296 ∧ r.disk_number_start < 65536 ∧
  r.internal_attributes < 65536 ∧ r.external_attributes < 4294967296 ∧
  -2147483648 ≤ r.local_header_relative_offset ∧
  r.local_header_relative_offset < 2147483648

theorem cdh_write_read (r : CentralDirectoryHeader) (hv : r.Valid)
    (hn : r.file_name.length ≤ 65535) (he : r.extra_fields.length ≤ 65535)
    (hc : r.file_comment.length ≤ 65535) :
    CentralDirectoryHeader.read_after_signature (r.write.drop 4) = .ok (r, []) := by
  obtain ⟨f1, f2, f3, f4, f5, f6, f7, f8, f9, name, extra, com, f10, f11, f12, f13⟩ := r
  obtain ⟨hv1, hv2, hv3, hv4, hv5, hv6, hv7, hv8, hv9, hv10, hv11, hv12, hv13, hv14⟩ := hv
  simp only at hv1 hv2 hv3 hv4 hv5 hv6 hv7 hv8 hv9 hv10 hv11 hv12 hv13 hv14 hn he hc
  unfold CentralDirectoryHeader.write CentralDirectoryHeader.read_after_signature
  simp only [List.append_assoc]
  rw [List.drop_left'
    (by simp : (u32leBytes CentralDirectoryHeader.signatureVal).length = 4)]
  have e1 : f1 % 65536 = f1 := Nat.mod_eq_of_lt (by exact hv1)
  have e2 : f2 % 65536 = f2 := Nat.mod_eq_of_lt (by exact hv2)
  have e3 : f3 % 65536 = f3 := Nat.mod_eq_of_lt (by exact hv3)
  have e4 : f4 % 65536 = f4 := Nat.mod_eq_of_lt (by exact hv4)
  have e5 : f5 % 65536 = f5 := Nat.mod_eq_of_lt (by exact hv5)
  have e6 : f6 % 65536 = f6 := Nat.mod_eq_of_lt (by exact hv6)
  have e7 : f7 % 4294967296 = f7 := Nat.mod_eq_of_lt (by exact hv7)
  have e8 : f8 % 4294967296 = f8 := Nat.mod_eq_of_lt (by exact hv8)
  have e9 : f9 % 4294967296 = f9 := Nat.mod_eq_of_lt (by exact hv9)
  have e10 : f10 % 65536 = f10 := Nat.mod_eq_of_lt (by exact hv10)
  have e11 : f11 % 65536 = f11 := Nat.mod_eq_of_lt (by exact hv11)
  have e12 : f12 % 4294967296 = f12 := Nat.mod_eq_of_lt (by exact hv12)
  have en : cappedLen16 name.length = name.length := by
    unfold cappedLen16
    rw [if_neg (by omega)]
  have ee : cappedLen16 extra.length = extra.length := by
    unfold cappedLen16
    rw [if_neg (by omega)]
  have ec : cappedLen16 com.length = com.length := by
    unfold cappedLen16
    rw [if_neg (by omega)]
  have eln : name.length % 65536 = name.length := Nat.mod_eq_of_lt (by omega)
  have ele : extra.length % 65536 = extra.length := Nat.mod_eq_of_lt (by omega)
  have elc : com.length % 65536 = com.length := Nat.mod_eq_of_lt (by omega)
  simp only [en, ee, ec]
  simp only [readU16le_append, readU32le_append, readI32le_append, hv13, hv14,
    Outcome.ok_bind, e1, e2, e3, e4, e5, e6, e7, e8, e9, e10, e11, e12,
    eln, ele, elc, readBytes_append, readBytes_self, Outcome.pure_eq_ok]

/-- In-memory validity of a Zip64 extra field: each present value fits its
on-wire width. -/
def Zip64ExtraField.Valid (r : Zip64ExtraField) : Prop :=
  (∀ v, r.uncompressed_size = some v → v < 18446744073709551616) ∧
  (∀ v, r.compressed_size = some v → v < 18446744073709551616) ∧
  (∀ v, r.local_header_relative_offset = some v →
     -9223372036854775808 ≤ v ∧ v < 9223372036854775808) ∧
  (∀ v, r.disk_number_start = some v → v < 4294967296)

/-- The originating central-directory fields are sentineled exactly for the
fields present in the extra-field record. -/
def Zip64ExtraField.MatchesCdir (r : Zip64ExtraField)
    (cu cc : Nat) (lo : Int) (dn : Nat) : Prop :=
  (r.uncompressed_size.isSome ↔ cu = 4294967295) ∧
  (r.compressed_size.isSome ↔ cc = 4294967295) ∧
  (r.local_header_relative_offset.isSome ↔ lo = -1) ∧
  (r.disk_number_start.isSome ↔ dn = 65535)

theorem zef_write_read (r : Zip64ExtraField) (cu cc : Nat) (lo : Int) (dn : Nat)
    (hv : r.Valid) (hm : r.MatchesCdir cu cc lo dn) (rest : List Nat) :
    Zip64ExtraField.read_after_tag (r.write.drop 2 ++ rest) cu cc lo dn
      = .ok (r, rest) := by
  obtain ⟨us, cs, lof, dns⟩ := r
  obtain ⟨hv1, hv2, hv3, hv4⟩ := hv
  obtain ⟨hm1, hm2, hm3, hm4⟩ := hm
  simp only at hv1 hv2 hv3 hv4 hm1 hm2 hm3 hm4
  unfold Zip64ExtraField.write Zip64ExtraField.read_after_tag
    Zip64ExtraField.expectedLength
  simp only [List.append_assoc]
  rw [List.drop_left' (by simp : (u16leBytes Zip64ExtraField.tagVal).length = 2)]
  cases us <;> cases cs <;> cases lof <;> cases dns <;>
    simp_all [readU16le_append, readU64le_append, readU32le_append,
      readI64le_append, Nat.mod_eq_of_lt, Option.isSome]

/-! ## Claim C1 -/

/-- C1: the claim states that for every declared size of at least 44 the
Zip64 EOCD decoder returns normally with an extensible-data sector of
`declared_size - 44` bytes.  The code instead subtracts `min_len()` = 56:
at the minimal legal declared size 44 the `u64` subtraction `44 - 56`
overflows (abnormal termination, modelled as `.panic`), sizes 44..55 all
abort the same way, and a declared size of 56 yields a sector of 0 bytes
where the claim requires 12.  Only the `RecordTooSmall` half of the claim
(declared size below 44) matches the code. -/
theorem C1_zip64_eocd_declared_size_bug :
    Zip64EndOfCentralDirectory.read_after_signature
        (u64leBytes 44 ++ List.replicate 44 0) = .panic
    ∧ Zip64EndOfCentralDirectory.read_after_signature
        (u64leBytes 43 ++ List.replicate 44 0) = .error .RecordTooSmall
    ∧ Zip64EndOfCentralDirectory.read_after_signature
        (u64leBytes 56 ++ List.replicate 56 0)
      = .ok ({ creator_version := 0, required_version := 0, disk_no := 0,
               start_central_dir_disk_no := 0,
               total_central_dir_entries_this_disk := 0,
               total_central_dir_entries := 0, central_directory_size := 0,
               central_dir_offset_on_disk := 0, extensible_data_sector := [] },
             List.replicate 12 0) := by
  refine ⟨by decide, by decide, by decide⟩

/-! ## Claim C2 -/

/-- An EOCD record whose comment is exactly 0xFFFF bytes long.  By the
struct documentation this is a valid in-memory value (`None` is reserved
for comments whose size does not fit in a 16-bit field, and 0xFFFF does
fit), yet its encoding uses the length sentinel 0xFFFF. -/
def eocdWithMaxComment : EndOfCentralDirectory :=
  ⟨0, 0, 0, 0, 0, 0, some (List.replicate 65535 0)⟩

/-- C2 counterexample: decoding the encoding of a valid EOCD record whose
comment is exactly 0xFFFF bytes long yields a record with an absent
comment, not the original record, so the round-trip claim fails as stated
for every record type. -/
theorem C2_roundtrip_counterexample :
    (EndOfCentralDirectory.read_after_signature
        (eocdWithMaxComment.write.drop 4)).recordOf
      ≠ some eocdWithMaxComment := by
  have hlen : (List.replicate 65535 (0 : Nat)).length = 65535 :=
    List.length_replicate 65535 0
  unfold eocdWithMaxComment EndOfCentralDirectory.write
    EndOfCentralDirectory.read_after_signature
  simp only [List.append_assoc]
  rw [List.drop_left'
    (by simp : (u32leBytes EndOfCentralDirectory.signatureVal).length = 4)]
  simp only [hlen]
  rw [if_pos (by omega)]
  simp only [readU16le_append, readU32le_append, Outcome.ok_bind]
  norm_num [Outcome.recordOf]
  intro hc
  cases hc

/-- C2 amended: the round trip holds for every record type once the
variable-length fields are restricted to what the length fields can
faithfully represent: the EOCD comment is absent or shorter than 0xFFFF
bytes, and a central-directory entry's name, extra data and comment are
each at most 0xFFFF bytes; the fixed fields must fit their on-wire widths
(`Valid`), and decoding the extra field is passed originating values that
match the present fields. -/
theorem C2_roundtrip_amended :
    (∀ r : EndOfCentralDirectory, r.Valid →
       (r.comment = none ∨ ∃ c, r.comment = some c ∧ c.length < 65535) →
       EndOfCentralDirectory.read_after_signature (r.write.drop 4) = .ok (r, []))
    ∧ (∀ r : Zip64EndOfCentralDirectoryLocator, r.Valid →
       Zip64EndOfCentralDirectoryLocator.read_after_signature (r.write.drop 4)
         = .ok (r, []))
    ∧ (∀ r : Zip64EndOfCentralDirectory, r.Valid →
       Zip64EndOfCentralDirectory.read_after_signature (r.write.drop 4)
         = .ok (r, []))
    ∧ (∀ r : CentralDirectoryHeader, r.Valid →
       r.file_name.length ≤ 65535 → r.extra_fields.length ≤ 65535 →
       r.file_comment.length ≤ 65535 →
       CentralDirectoryHeader.read_after_signature (r.write.drop 4) = .ok (r, []))
    ∧ (∀ (r : Zip64ExtraField) (cu cc : Nat) (lo : Int) (dn : Nat), r.Valid →
       r.MatchesCdir cu cc lo dn →
       Zip64ExtraField.read_after_tag (r.write.drop 2) cu cc lo dn
         = .ok (r, [])) := by
  refine ⟨eocd_write_read, zip64_locator_write_read, zip64_eocd_write_read,
    cdh_write_read, ?_⟩
  intro r cu cc lo dn hv hm
  have h := zef_write_read r cu cc lo dn hv hm []
  rwa [List.append_nil] at h

/-- C2 witness: the amended round trip evaluated at one concrete record of
each of the five types. -/
theorem C2_roundtrip_amended_witness :
    EndOfCentralDirectory.read_after_signature
        ((EndOfCentralDirectory.write ⟨1, 0, 2, 2, 50, 100, some [9, 8]⟩).drop 4)
      = .ok (⟨1, 0, 2, 2, 50, 100, some [9, 8]⟩, [])
    ∧ Zip64EndOfCentralDirectoryLocator.read_after_signature
        ((Zip64EndOfCentralDirectoryLocator.write ⟨0, 4295000000, 1⟩).drop 4)
      = .ok (⟨0, 4295000000, 1⟩, [])
    ∧ Zip64EndOfCentralDirectory.read_after_signature
        ((Zip64EndOfCentralDirectory.write ⟨45, 45, 0, 0, 70000, 70000, 9, 9, [1, 2]⟩).drop 4)
      = .ok (⟨45, 45, 0, 0, 70000, 70000, 9, 9, [1, 2]⟩, [])
    ∧ CentralDirectoryHeader.read_after_signature
        ((CentralDirectoryHeader.write
          ⟨798, 20, 0, 8, 4, 33, 12345, 10, 20, [97], [], [], 0, 0, 2175008768, -1⟩).drop 4)
      = .ok (⟨798, 20, 0, 8, 4, 33, 12345, 10, 20, [97], [], [], 0, 0, 2175008768, -1⟩, [])
    ∧ Zip64ExtraField.read_after_tag
        ((Zip64ExtraField.write ⟨some 5000000000, none, some (-1), none⟩).drop 2)
        4294967295 77 (-1) 3
      = .ok (⟨some 5000000000, none, some (-1), none⟩, []) := by
  refine ⟨C2_roundtrip_amended.1 _ (by unfold EndOfCentralDirectory.Valid; decide)
      (Or.inr ⟨[9, 8], rfl, by decide⟩),
    C2_roundtrip_amended.2.1 _
      (by unfold Zip64EndOfCentralDirectoryLocator.Valid; decide),
    C2_roundtrip_amended.2.2.1 _
      (by unfold Zip64EndOfCentralDirectory.Valid; decide),
    C2_roundtrip_amended.2.2.2.1 _ (by unfold CentralDirectoryHeader.Valid; decide)
      (by decide) (by decide) (by decide),
    C2_roundtrip_amended.2.2.2.2 _ 4294967295 77 (-1) 3 ?_ ?_⟩
  · unfold Zip64ExtraField.Valid
    refine ⟨?_, ?_, ?_, ?_⟩ <;> intro v hv <;> simp at hv <;> omega
  · unfold Zip64ExtraField.MatchesCdir
    refine ⟨by decide, by decide, by decide, by decide⟩

/-! ## Claim C8 -/

/-- C8: decoding a Zip64 extra field whose declared length differs from the
sum of the widths of exactly the sentineled originating fields fails with
`UnexpectedExtraDataLength` carrying the declared length; the check depends
only on the 2-byte length field (the payload `rest` is universally
quantified and never examined, so no partial read occurs); and on an exact
match the sentineled fields are read in the fixed order, as witnessed by
the round trip against the encoder, which emits them in that order. -/
theorem C8_zip64_extra_field_length_check :
    (∀ (cu cc : Nat) (lo : Int) (dn : Nat) (len : Nat) (rest : List Nat),
       len < 65536 →
       len ≠ Zip64ExtraField.expectedLength cu cc lo dn →
       Zip64ExtraField.read_after_tag (u16leBytes len ++ rest) cu cc lo dn
         = .error (.UnexpectedExtraDataLength len))
    ∧ (∀ (r : Zip64ExtraField) (cu cc : Nat) (lo : Int) (dn : Nat)
         (rest : List Nat), r.Valid → r.MatchesCdir cu cc lo dn →
       Zip64ExtraField.read_after_tag (r.write.drop 2 ++ rest) cu cc lo dn
         = .ok (r, rest)) := by
  constructor
  · intro cu cc lo dn len rest hlen hne
    unfold Zip64ExtraField.read_after_tag
    rw [readU16le_append]
    simp only [Outcome.ok_bind, Nat.mod_eq_of_lt hlen]
    rw [if_pos hne]
  · intro r cu cc lo dn rest hv hm
    exact zef_write_read r cu cc lo dn hv hm rest

/-- C8 witness: a declared length of 12 where 8 is expected (only the
uncompressed size sentineled) is rejected with the declared length in the
error, for any payload; and the matching declared length decodes. -/
theorem C8_zip64_extra_field_length_check_witness :
    Zip64ExtraField.read_after_tag (u16leBytes 12 ++ [1, 2, 3]) 4294967295 0 0 0
      = .error (.UnexpectedExtraDataLength 12)
    ∧ Zip64ExtraField.read_after_tag
        ((Zip64ExtraField.write ⟨some 7, none, none, none⟩).drop 2 ++ [5])
        4294967295 0 0 0
      = .ok (⟨some 7, none, none, none⟩, [5]) := by
  refine ⟨C8_zip64_extra_field_length_check.1 4294967295 0 0 0 12 [1, 2, 3]
      (by decide) (by unfold Zip64ExtraField.expectedLength; decide),
    C8_zip64_extra_field_length_check.2 _ 4294967295 0 0 0 [5] ?_ ?_⟩
  · unfold Zip64ExtraField.Valid
    refine ⟨?_, ?_, ?_, ?_⟩ <;> intro v hv <;> simp at hv <;> omega
  · unfold Zip64ExtraField.MatchesCdir
    refine ⟨by decide, by decide, by decide, by decide⟩

/-! ## Claim C10 -/

/-- C10: when a variable-length field is 0xFFFF bytes or longer, the
encoder writes the sentinel 0xFFFF into the corresponding length field yet
still emits the entire content, so for fields longer than 0xFFFF the
declared and emitted lengths disagree; and an EOCD comment of exactly
0xFFFF bytes is declared as 0xFFFF, which decodes back as an absent
comment. -/
theorem C10_length_field_capping :
    (∀ (r : EndOfCentralDirectory) (c : List Nat), r.comment = some c →
       65535 ≤ c.length →
       r.write
         = u32leBytes EndOfCentralDirectory.signatureVal
           ++ u16leBytes r.disk_no
           ++ u16leBytes r.start_central_dir_disk_no
           ++ u16leBytes r.total_central_dir_entries_this_disk
           ++ u16leBytes r.total_central_dir_entries
           ++ u32leBytes r.central_directory_size
           ++ u32leBytes r.central_dir_offset_on_disk
           ++ (u16leBytes 65535 ++ c))
    ∧ (∀ r : CentralDirectoryHeader, 65535 < r.file_name.length →
       cappedLen16 r.file_name.length = 65535
       ∧ cappedLen16 r.file_name.length ≠ r.file_name.length
       ∧ r.write.length
           = 46 + r.file_name.length + r.extra_fields.length
             + r.file_comment.length)
    ∧ (∀ (r : EndOfCentralDirectory) (c : List Nat), r.comment = some c →
       c.length = 65535 → r.Valid →
       EndOfCentralDirectory.read_after_signature (r.write.drop 4)
         = .ok ({ r with comment := none }, c)) := by
  refine ⟨?_, ?_, ?_⟩
  · intro r c hc hlen
    unfold EndOfCentralDirectory.write
    rw [hc]
    simp only []
    have hcap : (if c.length ≤ 65535 then c.length else 65535) = 65535 := by
      split <;> omega
    rw [hcap]
  · intro r hn
    refine ⟨by unfold cappedLen16; rw [if_pos (by omega)], by unfold cappedLen16; rw [if_pos (by omega)]; omega, ?_⟩
    unfold CentralDirectoryHeader.write
    simp only [List.length_append, length_u16leBytes, length_u32leBytes,
      i32leBytes, List.length_nil]
    try omega
  · intro r c hc hlen hv
    obtain ⟨d1, d2, d3, d4, d5, d6, com⟩ := r
    obtain ⟨hv1, hv2, hv3, hv4, hv5, hv6⟩ := hv
    simp only at hv1 hv2 hv3 hv4 hv5 hv6 hc
    subst hc
    unfold EndOfCentralDirectory.write EndOfCentralDirectory.read_after_signature
    simp only [List.append_assoc]
    rw [List.drop_left'
      (by simp : (u32leBytes EndOfCentralDirectory.signatureVal).length = 4)]
    have e1 : d1 % 65536 = d1 := Nat.mod_eq_of_lt (by exact hv1)
    have e2 : d2 % 65536 = d2 := Nat.mod_eq_of_lt (by exact hv2)
    have e3 : d3 % 65536 = d3 := Nat.mod_eq_of_lt (by exact hv3)
    have e4 : d4 % 65536 = d4 := Nat.mod_eq_of_lt (by exact hv4)
    have e5 : d5 % 4294967296 = d5 := Nat.mod_eq_of_lt (by exact hv5)
    have e6 : d6 % 4294967296 = d6 := Nat.mod_eq_of_lt (by exact hv6)
    simp only [hlen]
    rw [if_pos (by omega)]
    simp only [readU16le_append, readU32le_append, Outcome.ok_bind,
      e1, e2, e3, e4, e5, e6]
    norm_num

/-- A central-directory header whose file name is longer than 0xFFFF bytes. -/
def cdhWithHugeName : CentralDirectoryHeader :=
  ⟨0, 0, 0, 0, 0, 0, 0, 0, 0, List.replicate 65536 0, [], [], 0, 0, 0, 0⟩

/-- An EOCD record with a comment of exactly 0xFFFF bytes (same shape as
`eocdWithMaxComment`, kept separate so each claim evaluates its own data). -/
def c10Eocd : EndOfCentralDirectory :=
  ⟨0, 0, 0, 0, 0, 0, some (List.replicate 65535 0)⟩

/-- C10 witness: evaluation at a central-directory header whose file name
is 65536 bytes long, and at an EOCD record with a comment of exactly 65535
bytes. -/
theorem C10_length_field_capping_witness :
    (cappedLen16 cdhWithHugeName.file_name.length = 65535
     ∧ cappedLen16 cdhWithHugeName.file_name.length
         ≠ cdhWithHugeName.file_name.length
     ∧ cdhWithHugeName.write.length
         = 46 + cdhWithHugeName.file_name.length
           + cdhWithHugeName.extra_fields.length
           + cdhWithHugeName.file_comment.length)
    ∧ EndOfCentralDirectory.read_after_signature (c10Eocd.write.drop 4)
        = .ok ({ c10Eocd with comment := none }, List.replicate 65535 0) := by
  have hgt : 65535 < cdhWithHugeName.file_name.length := by
    rw [show cdhWithHugeName.file_name = List.replicate 65536 0 from rfl,
      List.length_replicate]
    omega
  refine ⟨C10_length_field_capping.2.1 cdhWithHugeName hgt, ?_⟩
  exact C10_length_field_capping.2.2 c10Eocd (List.replicate 65535 0)
    rfl (List.length_replicate 65535 0)
    (by unfold EndOfCentralDirectory.Valid c10Eocd; decide)

/-! ## Claim C3 -/

/-- C3 counterexample: with a stream of four zero bytes, `lookback_for_signature`
started at position 0 does not return `Ok(false)`: the non-matching 4-byte
read is followed by `seek(Current(-5))` from position 4, which attempts to
move before byte 0 and fails with an I/O error. -/
theorem C3_lookback_at_zero_counterexample :
    (lookback_for_signature ⟨[0, 0, 0, 0], 0, []⟩
        EndOfCentralDirectory.signatureVal).1 = .error .Io := by
  rw [lookback_for_signature]
  rw [readExact_eval [0, 0, 0, 0] 0 [] 4 (by decide)]
  simp only []
  rw [if_neg (by decide)]
  simp only [Cursor.seekCur]
  rw [if_pos (by decide)]

/-- C3 amended: started at stream position 0 the scan never returns
`Ok(false)`; it returns `Ok(true)` when the first four bytes match the
signature, and otherwise fails with an I/O error (short read when fewer
than 4 bytes exist, else seek-before-zero).  After a non-matching read at a
position `p ≥ 1` the stream is stepped back 5 bytes to `p - 1`, and the
scan reports not-found exactly when that step lands at offset 0 (the
4-byte window at offset 0 itself is never examined after stepping). -/
theorem C3_lookback_amended :
    (∀ (data : List Nat) (sig : Nat),
       (lookback_for_signature ⟨data, 0, []⟩ sig).1 ≠ .ok false)
    ∧ (∀ (data : List Nat) (sig : Nat), 4 ≤ data.length →
       leValue (byteSlice data 0 4) = sig →
       (lookback_for_signature ⟨data, 0, []⟩ sig).1 = .ok true)
    ∧ (∀ (data : List Nat) (sig : Nat),
       (4 ≤ data.length → leValue (byteSlice data 0 4) ≠ sig) →
       (lookback_for_signature ⟨data, 0, []⟩ sig).1 = .error .Io)
    ∧ (∀ (data : List Nat) (sig : Nat) (p : Nat) (ev : List IoEvent), 1 ≤ p →
       p + 4 ≤ data.length → leValue (byteSlice data p 4) ≠ sig →
       (lookback_for_signature ⟨data, p, ev⟩ sig).1
         = if p = 1 then .ok false
           else (lookback_for_signature
                  ⟨data, p - 1, ev ++ [.read p 4]⟩ sig).1) := by
  have hstep : ∀ (data : List Nat) (sig : Nat) (p : Nat) (ev : List IoEvent),
      1 ≤ p → p + 4 ≤ data.length → leValue (byteSlice data p 4) ≠ sig →
      (lookback_for_signature ⟨data, p, ev⟩ sig).1
        = if p = 1 then .ok false
          else (lookback_for_signature ⟨data, p - 1, ev ++ [.read p 4]⟩ sig).1 := by
    intro data sig p ev hp hlen hne
    rw [lookback_for_signature]
    rw [readExact_eval data p ev 4 hlen]
    simp only []
    rw [if_neg hne]
    simp only [Cursor.seekCur]
    rw [if_neg (by push_cast; omega)]
    simp only []
    have he : (((p + 4 : Nat) : Int) + (-5)).toNat = p - 1 := by omega
    simp only [he]
    by_cases hp1 : p = 1
    · rw [dif_pos (by omega : p - 1 = 0), if_pos hp1]
    · rw [dif_neg (by omega : ¬(p - 1 = 0)), if_neg hp1]
  refine ⟨?_, ?_, ?_, hstep⟩
  · intro data sig
    rw [lookback_for_signature]
    by_cases h4 : 4 ≤ data.length
    · rw [readExact_eval data 0 [] 4 (by omega)]
      simp only []
      by_cases hsig : leValue (byteSlice data 0 4) = sig
      · rw [if_pos hsig]
        intro hc
        cases hc
      · rw [if_neg hsig]
        simp only [Cursor.seekCur]
        rw [if_pos (by omega)]
        simp only []
        intro hc
        cases hc
    · rw [readExact_fail data 0 [] 4 (by omega)]
      simp only []
      intro hc
      cases hc
  · intro data sig h4 hsig
    rw [lookback_for_signature]
    rw [readExact_eval data 0 [] 4 (by omega)]
    simp only []
    rw [if_pos hsig]
  · intro data sig hne
    rw [lookback_for_signature]
    by_cases h4 : 4 ≤ data.length
    · rw [readExact_eval data 0 [] 4 (by omega)]
      simp only []
      rw [if_neg (hne h4)]
      simp only [Cursor.seekCur]
      rw [if_pos (by omega)]
    · rw [readExact_fail data 0 [] 4 (by omega)]

/-- C3 witness: the amended behavior evaluated on concrete streams: a
stream whose first word is the EOCD signature is found from position 0; a
3-byte stream errors; a non-matching read at position 1 stops not-found
after stepping back to offset 0. -/
theorem C3_lookback_amended_witness :
    (lookback_for_signature ⟨[0x50, 0x4B, 0x05, 0x06], 0, []⟩
        EndOfCentralDirectory.signatureVal).1 = .ok true
    ∧ (lookback_for_signature ⟨[1, 2, 3], 0, []⟩
        EndOfCentralDirectory.signatureVal).1 = .error .Io
    ∧ (lookback_for_signature ⟨[9, 9, 9, 9, 9], 1, []⟩
        EndOfCentralDirectory.signatureVal).1 = .ok false := by
  refine ⟨C3_lookback_amended.2.1 _ _ (by decide) (by decide),
    C3_lookback_amended.2.2.1 _ _ (by intro h; exact absurd h (by decide)), ?_⟩
  have h := C3_lookback_amended.2.2.2 [9, 9, 9, 9, 9]
    EndOfCentralDirectory.signatureVal 1 [] (by decide) (by decide) (by decide)
  simpa using h

/-! ## Concrete sample streams for the patcher claims -/

/-- A 42-byte stream holding one well-formed central-directory entry at
offset 0: signature, creator version 0x0314 (Unix, spec 2.0), 32 bytes of
intervening fixed fields, and external attributes 0x81A40000
(regular file, permissions 0o644, not executable). -/
def sampleUnixEntry : List Nat :=
  [0x50, 0x4B, 0x01, 0x02, 0x14, 0x03] ++ List.replicate 32 0
  ++ [0x00, 0x00, 0xA4, 0x81]

/-- A six-byte stream holding a central-directory signature and a creator
version whose high byte is 0x00 (MS-DOS origin, not Unix). -/
def sampleNonUnixEntry : List Nat := [0x50, 0x4B, 0x01, 0x02, 0x14, 0x00]

/-! ## Claim C4 -/

/-- C4 counterexample: the fixed-field span between the creator-version
field and the external-attributes field is 32 bytes, not the 38 the spec
states: in a successful concrete run the external-attributes read happens
at offset 38 from the record start (4-byte signature + 2-byte creator
version + 32), and no access happens at offset 44 (which a 38-byte skip
would produce). -/
theorem C4_skip_span_counterexample :
    cdhInterveningFieldsLen ≠ 38
    ∧ (zip_make_executable sampleUnixEntry 0).events
        = [.read 0 4, .read 4 2, .write 4 2, .read 38 4, .write 38 4]
    ∧ ¬ (IoEvent.read 44 4 ∈ (zip_make_executable sampleUnixEntry 0).events) := by
  refine ⟨by decide, by decide, by decide⟩

/-- C4 amended: after the creator-version field is handled both patch
operations advance the stream by exactly 32 bytes (the itemized sum of the
thirteen intervening fixed fields), so the 4-byte external-attributes
field is accessed at offset 38 from the record start. -/
theorem C4_skip_span_amended :
    cdhInterveningFieldsLen = 32
    ∧ (∀ (data : List Nat) (off : Nat),
        (zip_make_executable data off).result = .ok () →
        (zip_make_executable data off).events
          = [.read off 4, .read (off + 4) 2, .write (off + 4) 2,
             .read (off + 38) 4, .write (off + 38) 4])
    ∧ (∀ (data : List Nat) (off : Nat),
        (zip_make_not_executable data off).result = .ok () →
        (leValue (byteSlice data (off + 4) 2) &&& 0xFF00) = 0x0300 →
        IoEvent.read (off + 38) 4 ∈ (zip_make_not_executable data off).events) := by
  refine ⟨by decide, ?_, ?_⟩
  · intro data off h
    rw [zip_make_executable_eq] at h ⊢
    split_ifs at h ⊢ <;> simp_all
  · intro data off h hux
    rw [zip_make_not_executable_eq] at h ⊢
    split_ifs at h ⊢ <;> simp_all

/-- C4 witness: the amended span evaluated on the concrete 42-byte entry. -/
theorem C4_skip_span_amended_witness :
    (zip_make_executable sampleUnixEntry 0).events
      = [.read 0 4, .read 4 2, .write 4 2, .read 38 4, .write 38 4]
    ∧ IoEvent.read 38 4 ∈ (zip_make_not_executable sampleUnixEntry 0).events := by
  constructor
  · have h := C4_skip_span_amended.2.1 sampleUnixEntry 0 (by decide)
    simpa using h
  · have h := C4_skip_span_amended.2.2 sampleUnixEntry 0 (by decide) (by decide)
    simpa using h

/-! ## Claim C5 -/

/-- C5 counterexample: a successful `zip_make_executable` run performs a
read after a write (the creator-version write precedes the
external-attributes read and write), so the patch is not one
seek-read-validate pass followed by a single seek-write pass. -/
theorem C5_single_write_pass_counterexample :
    (zip_make_executable sampleUnixEntry 0).result = .ok ()
    ∧ readAfterWrite (zip_make_executable sampleUnixEntry 0).events = true := by
  refine ⟨by decide, by decide⟩

/-- C5 amended: the only format error a patch operation itself raises,
`IncorrectSignature`, is detected before any mutating write, so on that
return the stream bytes are unchanged and no write access was issued; but
a successful `zip_make_executable` is not a single read pass followed by a
single write pass: it validates the signature, reads and rewrites the
2-byte creator-version field, and only then reads and rewrites the 4-byte
external-attributes field — two separate writes with a read between. -/
theorem C5_error_before_write_amended :
    (∀ (data : List Nat) (off : Nat),
       (zip_make_executable data off).result = .error .IncorrectSignature →
       (zip_make_executable data off).data = data
       ∧ bytesWritten (zip_make_executable data off).events = 0)
    ∧ (∀ (data : List Nat) (off : Nat),
       (zip_make_not_executable data off).result = .error .IncorrectSignature →
       (zip_make_not_executable data off).data = data
       ∧ bytesWritten (zip_make_not_executable data off).events = 0)
    ∧ (∀ (data : List Nat) (off : Nat),
       (zip_make_executable data off).result = .ok () →
       readAfterWrite (zip_make_executable data off).events = true) := by
  refine ⟨?_, ?_, ?_⟩
  · intro data off h
    rw [zip_make_executable_eq] at h ⊢
    split_ifs at h ⊢ <;> simp_all [bytesWritten]
  · intro data off h
    rw [zip_make_not_executable_eq] at h ⊢
    split_ifs at h ⊢ <;> simp_all [bytesWritten]
  · intro data off h
    rw [zip_make_executable_eq] at h ⊢
    split_ifs at h ⊢ <;> simp_all [readAfterWrite]

/-- C5 witness: evaluation on concrete streams: a stream with a wrong
signature is rejected with no write and unchanged bytes; the successful
run interleaves a read after the first write. -/
theorem C5_error_before_write_amended_witness :
    ((zip_make_executable [9, 9, 9, 9, 9, 9] 0).data = [9, 9, 9, 9, 9, 9]
     ∧ bytesWritten (zip_make_executable [9, 9, 9, 9, 9, 9] 0).events = 0)
    ∧ readAfterWrite (zip_make_executable sampleUnixEntry 0).events = true := by
  refine ⟨C5_error_before_write_amended.1 [9, 9, 9, 9, 9, 9] 0 (by decide),
    C5_error_before_write_amended.2.2 sampleUnixEntry 0 (by decide)⟩

/-! ## Claim C9 -/

/-- C9 counterexample: a successful `zip_make_not_executable` call on a
non-Unix entry rewrites zero bytes, outside the claimed range of exactly
2 to 6; the stream is returned byte-for-byte unchanged. -/
theorem C9_write_count_counterexample :
    (zip_make_not_executable sampleNonUnixEntry 0).result = .ok ()
    ∧ bytesWritten (zip_make_not_executable sampleNonUnixEntry 0).events = 0
    ∧ (zip_make_not_executable sampleNonUnixEntry 0).data = sampleNonUnixEntry := by
  refine ⟨by decide, by decide, by decide⟩

/-- C9 amended: a patch call rewrites at most 6 bytes (0, 2, 4 or 6, not
always 2 to 6): every write access is the 2-byte creator-version field at
offset +4 (only in `zip_make_executable`) or the 4-byte
external-attributes field at offset +38; the archive length is never
changed; and every byte outside those two fields is unchanged. -/
theorem C9_frame_amended :
    (∀ (data : List Nat) (off : Nat),
       (zip_make_executable data off).data.length = data.length
       ∧ (zip_make_not_executable data off).data.length = data.length)
    ∧ (∀ (data : List Nat) (off i : Nat),
       (i < off + 4 ∨ (off + 6 ≤ i ∧ i < off + 38) ∨ off + 42 ≤ i) →
       (zip_make_executable data off).data[i]? = data[i]?
       ∧ (zip_make_not_executable data off).data[i]? = data[i]?)
    ∧ (∀ (data : List Nat) (off : Nat) (e : IoEvent),
       e ∈ (zip_make_executable data off).events →
       ∀ p n, e = .write p n → (p = off + 4 ∧ n = 2) ∨ (p = off + 38 ∧ n = 4))
    ∧ (∀ (data : List Nat) (off : Nat) (e : IoEvent),
       e ∈ (zip_make_not_executable data off).events →
       ∀ p n, e = .write p n → p = off + 38 ∧ n = 4)
    ∧ (∀ (data : List Nat) (off : Nat),
       bytesWritten (zip_make_executable data off).events ≤ 6
       ∧ bytesWritten (zip_make_not_executable data off).events ≤ 6) := by
  refine ⟨?_, ?_, ?_, ?_, ?_⟩
  · intro data off
    constructor
    · rw [zip_make_executable_eq]
      split_ifs with h1 h2 h3 h4
      · simp only []
        rw [length_overwriteAt _ _ _ (by rw [length_overwriteAt _ _ _ (by simp; omega)]; simp; omega),
          length_overwriteAt _ _ _ (by simp; omega)]
      · simp only []
        rw [length_overwriteAt _ _ _ (by simp; omega)]
      all_goals rfl
    · rw [zip_make_not_executable_eq]
      split_ifs with h1 h2 h3 h4 h5 h6
      · simp only []
        rw [length_overwriteAt _ _ _ (by simp; omega)]
      all_goals rfl
  · intro data off i hi
    constructor
    · rw [zip_make_executable_eq]
      split_ifs with h1 h2 h3 h4
      · simp only []
        rw [getElem?_overwriteAt _ _ _ _
            (by rw [length_overwriteAt _ _ _ (by simp; omega)]; simp; omega),
          if_neg (by simp; omega),
          getElem?_overwriteAt _ _ _ _ (by simp; omega),
          if_neg (by simp; omega)]
      · simp only []
        rw [getElem?_overwriteAt _ _ _ _ (by simp; omega), if_neg (by simp; omega)]
      all_goals rfl
    · rw [zip_make_not_executable_eq]
      split_ifs with h1 h2 h3 h4 h5 h6
      · simp only []
        rw [getElem?_overwriteAt _ _ _ _ (by simp; omega), if_neg (by simp; omega)]
      all_goals rfl
  · intro data off e he p n hw
    rw [zip_make_executable_eq] at he
    split_ifs at he <;> simp_all <;> rcases he with he | he | he | he | he <;>
      simp_all
  · intro data off e he p n hw
    rw [zip_make_not_executable_eq] at he
    split_ifs at he <;> simp_all <;> rcases he with he | he | he | he <;> simp_all
  · intro data off
    constructor
    · rw [zip_make_executable_eq]
      split_ifs <;> simp [bytesWritten]
    · rw [zip_make_not_executable_eq]
      split_ifs <;> simp [bytesWritten]

/-- C9 witness: the frame properties evaluated on the concrete 42-byte
entry: byte 10 (inside the skipped fixed fields) is untouched by both
operations, and a concrete write event of the successful run matches the
allowed positions. -/
theorem C9_frame_amended_witness :
    ((zip_make_executable sampleUnixEntry 0).data[10]? = sampleUnixEntry[10]?
     ∧ (zip_make_not_executable sampleUnixEntry 0).data[10]? = sampleUnixEntry[10]?)
    ∧ ((0 + 4 = 0 + 4 ∧ 2 = 2) ∨ (0 + 4 = 0 + 38 ∧ 2 = 4)) := by
  refine ⟨C9_frame_amended.2.1 sampleUnixEntry 0 10 (by omega), ?_⟩
  exact C9_frame_amended.2.2.1 sampleUnixEntry 0 (.write (0 + 4) 2) (by decide)
    (0 + 4) 2 rfl

/-! ## Value lemmas for the patcher transforms -/

theorem leValue_u16leBytes (v : Nat) : leValue (u16leBytes v) = v % 65536 := by
  simp only [u16leBytes, leValue]
  omega

theorem leValue_u32leBytes (v : Nat) : leValue (u32leBytes v) = v % 4294967296 := by
  simp only [u32leBytes, leValue]
  omega

theorem cv_transform_lt (x : Nat) : (x &&& 0x00FF) ||| 0x0300 < 65536 := by
  have h : (65536 : Nat) = 2 ^ 16 := by norm_num
  rw [h]
  exact Nat.or_lt_two_pow (Nat.and_lt_two_pow x (by norm_num)) (by norm_num)

theorem ea_set_transform_lt (x : Nat) :
    ((x &&& ((0o170000 <<< 16) ^^^ 0xFFFFFFFF)) ||| (0o100000 <<< 16))
      ||| (0o000111 <<< 16) < 4294967296 := by
  have h : (4294967296 : Nat) = 2 ^ 32 := by norm_num
  rw [h]
  refine Nat.or_lt_two_pow (Nat.or_lt_two_pow ?_ (by decide)) (by decide)
  exact Nat.and_lt_two_pow x (by decide)

theorem ea_clear_transform_lt (x : Nat) :
    x &&& (0xFFFFFFFF ^^^ (0o000111 <<< 16)) < 4294967296 := by
  have h : (4294967296 : Nat) = 2 ^ 32 := by norm_num
  rw [h]
  exact Nat.and_lt_two_pow x (by decide)

/-! ## Claim C6 -/

/-- C6: both patch operations are idempotent at the level of the stream
bytes: running the same operation a second time at the same offset leaves
the bytes produced by the first run unchanged, on every archive state and
offset (error runs included). -/
theorem C6_patch_idempotent :
    ∀ (data : List Nat) (off : Nat),
      (zip_make_executable (zip_make_executable data off).data off).data
        = (zip_make_executable data off).data
      ∧ (zip_make_not_executable (zip_make_not_executable data off).data off).data
        = (zip_make_not_executable data off).data := by
  intro data off
  constructor
  · rw [zip_make_executable_eq data off]
    split_ifs with h4 hsig h6 h42
    · simp only []
      set cv1 := (leValue (byteSlice data (off + 4) 2) &&& 0x00FF) ||| 0x0300 with hcv1
      set ea1 := ((leValue (byteSlice data (off + 38) 4)
          &&& ((0o170000 <<< 16) ^^^ 0xFFFFFFFF)) ||| (0o100000 <<< 16))
          ||| (0o000111 <<< 16) with hea1
      set d1 := overwriteAt data (off + 4) (u16leBytes cv1) with hd1
      set X := overwriteAt d1 (off + 38) (u32leBytes ea1) with hX
      have hld1 : d1.length = data.length := by
        rw [hd1, length_overwriteAt _ _ _ (by simp only [length_u16leBytes, length_u32leBytes]; omega)]
      have hlX : X.length = data.length := by
        rw [hX, length_overwriteAt _ _ _ (by rw [hld1]; simp only [length_u16leBytes, length_u32leBytes]; omega), hld1]
      have hsig2 : byteSlice X off 4 = byteSlice data off 4 := by
        rw [hX, byteSlice_overwriteAt_disjoint _ _ _ _ _
            (by rw [hld1]; simp only [length_u16leBytes, length_u32leBytes]; omega) (by simp only [length_u16leBytes, length_u32leBytes]; omega),
          hd1, byteSlice_overwriteAt_disjoint _ _ _ _ _
            (by simp only [length_u16leBytes, length_u32leBytes]; omega) (by simp only [length_u16leBytes, length_u32leBytes]; omega)]
      have hcvslice : byteSlice X (off + 4) 2 = u16leBytes cv1 := by
        rw [hX, byteSlice_overwriteAt_disjoint _ _ _ _ _
            (by rw [hld1]; simp only [length_u16leBytes, length_u32leBytes]; omega) (by simp only [length_u16leBytes, length_u32leBytes]; omega), hd1]
        have h := byteSlice_overwriteAt_self data (u16leBytes cv1) (off + 4)
          (by simp only [length_u16leBytes, length_u32leBytes]; omega)
        simpa using h
      have heaslice : byteSlice X (off + 38) 4 = u32leBytes ea1 := by
        rw [hX]
        have h := byteSlice_overwriteAt_self d1 (u32leBytes ea1) (off + 38)
          (by rw [hld1]; simp only [length_u16leBytes, length_u32leBytes]; omega)
        simpa using h
      rw [zip_make_executable_eq X off]
      rw [if_pos (by rw [hlX]; omega), if_pos (by rw [hsig2]; exact hsig),
        if_pos (by rw [hlX]; omega), if_pos (by rw [hlX]; omega)]
      simp only []
      have hcv2 : (leValue (byteSlice X (off + 4) 2) &&& 0x00FF) ||| 0x0300 = cv1 := by
        rw [hcvslice, leValue_u16leBytes, Nat.mod_eq_of_lt (by rw [hcv1]; exact cv_transform_lt _),
          hcv1]
        exact nat_and_or_mask_idem _ _ _
      have hea2 : ((leValue (byteSlice X (off + 38) 4)
          &&& ((0o170000 <<< 16) ^^^ 0xFFFFFFFF)) ||| (0o100000 <<< 16))
          ||| (0o000111 <<< 16) = ea1 := by
        rw [heaslice, leValue_u32leBytes,
          Nat.mod_eq_of_lt (by rw [hea1]; exact ea_set_transform_lt _), hea1]
        exact nat_and_or_or_mask_idem _ _ _ _
      rw [hcv2, hea2]
      rw [overwriteAt_byteSlice_id X (u16leBytes cv1) (off + 4) 2
          (by rw [hlX]; omega) hcvslice]
      exact overwriteAt_byteSlice_id X (u32leBytes ea1) (off + 38) 4
        (by rw [hlX]; omega) heaslice
    · simp only []
      set cv1 := (leValue (byteSlice data (off + 4) 2) &&& 0x00FF) ||| 0x0300 with hcv1
      set d1 := overwriteAt data (off + 4) (u16leBytes cv1) with hd1
      have hld1 : d1.length = data.length := by
        rw [hd1, length_overwriteAt _ _ _ (by simp only [length_u16leBytes, length_u32leBytes]; omega)]
      have hsig2 : byteSlice d1 off 4 = byteSlice data off 4 := by
        rw [hd1, byteSlice_overwriteAt_disjoint _ _ _ _ _
          (by simp only [length_u16leBytes, length_u32leBytes]; omega) (by simp only [length_u16leBytes, length_u32leBytes]; omega)]
      have hcvslice : byteSlice d1 (off + 4) 2 = u16leBytes cv1 := by
        rw [hd1]
        have h := byteSlice_overwriteAt_self data (u16leBytes cv1) (off + 4)
          (by simp only [length_u16leBytes, length_u32leBytes]; omega)
        simpa using h
      rw [zip_make_executable_eq d1 off]
      rw [if_pos (by rw [hld1]; omega), if_pos (by rw [hsig2]; exact hsig),
        if_pos (by rw [hld1]; omega), if_neg (by rw [hld1]; omega)]
      simp only []
      have hcv2 : (leValue (byteSlice d1 (off + 4) 2) &&& 0x00FF) ||| 0x0300 = cv1 := by
        rw [hcvslice, leValue_u16leBytes, Nat.mod_eq_of_lt (by rw [hcv1]; exact cv_transform_lt _),
          hcv1]
        exact nat_and_or_mask_idem _ _ _
      rw [hcv2]
      exact overwriteAt_byteSlice_id d1 (u16leBytes cv1) (off + 4) 2
        (by rw [hld1]; omega) hcvslice
    · simp only []
      rw [zip_make_executable_eq data off,
        if_pos h4, if_pos hsig, if_neg h6]
    · simp only []
      rw [zip_make_executable_eq data off, if_pos h4, if_neg hsig]
    · simp only []
      rw [zip_make_executable_eq data off, if_neg h4]
  · rw [zip_make_not_executable_eq data off]
    split_ifs with h4 hsig h6 hux h42 hbits
    · simp only []
      set ea := leValue (byteSlice data (off + 38) 4) with hea
      set ea2 := ea &&& (0xFFFFFFFF ^^^ (0o000111 <<< 16)) with hea2def
      set X := overwriteAt data (off + 38) (u32leBytes ea2) with hX
      have hlX : X.length = data.length := by
        rw [hX, length_overwriteAt _ _ _ (by simp only [length_u16leBytes, length_u32leBytes]; omega)]
      have hsig2 : byteSlice X off 4 = byteSlice data off 4 := by
        rw [hX, byteSlice_overwriteAt_disjoint _ _ _ _ _
          (by simp only [length_u16leBytes, length_u32leBytes]; omega) (by simp only [length_u16leBytes, length_u32leBytes]; omega)]
      have hcvslice : byteSlice X (off + 4) 2 = byteSlice data (off + 4) 2 := by
        rw [hX, byteSlice_overwriteAt_disjoint _ _ _ _ _
          (by simp only [length_u16leBytes, length_u32leBytes]; omega) (by simp only [length_u16leBytes, length_u32leBytes]; omega)]
      have heaslice : byteSlice X (off + 38) 4 = u32leBytes ea2 := by
        rw [hX]
        have h := byteSlice_overwriteAt_self data (u32leBytes ea2) (off + 38)
          (by simp only [length_u16leBytes, length_u32leBytes]; omega)
        simpa using h
      rw [zip_make_not_executable_eq X off]
      rw [if_pos (by rw [hlX]; omega), if_pos (by rw [hsig2]; exact hsig),
        if_pos (by rw [hlX]; omega), if_pos (by rw [hcvslice]; exact hux),
        if_pos (by rw [hlX]; omega)]
      have hz : ((0xFFFFFFFF ^^^ (0o000111 <<< 16)) &&& (0o000111 <<< 16) : Nat) = 0 := by
        decide
      have hnobits : ¬(leValue (byteSlice X (off + 38) 4) &&& (0o000111 <<< 16) ≠ 0) := by
        rw [heaslice, leValue_u32leBytes,
          Nat.mod_eq_of_lt (by rw [hea2def]; exact ea_clear_transform_lt _), hea2def,
          Nat.and_assoc, hz, Nat.and_zero]
        simp
      rw [if_neg hnobits]
    · simp only []
      rw [zip_make_not_executable_eq data off, if_pos h4, if_pos hsig,
        if_pos h6, if_pos hux, if_pos h42, if_neg hbits]
    · simp only []
      rw [zip_make_not_executable_eq data off, if_pos h4, if_pos hsig,
        if_pos h6, if_pos hux, if_neg h42]
    · simp only []
      rw [zip_make_not_executable_eq data off, if_pos h4, if_pos hsig,
        if_pos h6, if_neg hux]
    · simp only []
      rw [zip_make_not_executable_eq data off, if_pos h4, if_pos hsig, if_neg h6]
    · simp only []
      rw [zip_make_not_executable_eq data off, if_pos h4, if_neg hsig]
    · simp only []
      rw [zip_make_not_executable_eq data off, if_neg h4]

/-! ## Byte-level helpers for the inverse property -/

theorem list_len2 (l : List Nat) (h : l.length = 2) : ∃ a b, l = [a, b] := by
  match l, h with
  | [a, b], _ => exact ⟨a, b, rfl⟩

theorem list_len4 (l : List Nat) (h : l.length = 4) :
    ∃ a b c d, l = [a, b, c, d] := by
  match l, h with
  | [a, b, c, d], _ => exact ⟨a, b, c, d, rfl⟩

theorem byteSlice_subset (data : List Nat) (p n : Nat) :
    byteSlice data p n ⊆ data := by
  intro x hx
  exact List.drop_subset _ _ (List.take_subset _ _ hx)

set_option maxRecDepth 8192 in
theorem byte_lor_768 : ∀ a, a < 256 → a ||| 768 = a + 768 := by decide

set_option maxRecDepth 8192 in
theorem byte_and_65280 : ∀ a, a < 256 → a &&& 65280 = 0 := by decide

theorem and_255_eq_mod (x : Nat) : x &&& 255 = x % 256 := by
  have h : (255 : Nat) = 2 ^ 8 - 1 := by norm_num
  have h2 : (256 : Nat) = 2 ^ 8 := by norm_num
  rw [h, h2, Nat.and_pow_two_sub_one_eq_mod]

theorem u32leBytes_leValue_id (e0 e1 e2 e3 : Nat) (h0 : e0 < 256) (h1 : e1 < 256)
    (h2 : e2 < 256) (h3 : e3 < 256) :
    u32leBytes (leValue [e0, e1, e2, e3]) = [e0, e1, e2, e3] := by
  simp only [u32leBytes, leValue, List.cons.injEq, and_true]
  omega

/-! ## Claim C7 -/

/-- C7: for an entry that is currently non-executable (all three execute
bits clear), of Unix origin (creator-version high byte 0x03) and with Unix
file type regular-file (file-type bits 0o170000 of the high word equal to
0o100000), running `zip_make_executable` and then immediately
`zip_make_not_executable` on its header offset restores the whole stream —
in particular the 4-byte external-attributes field — bit for bit, and the
intermediate state agrees with the original on every external-attribute
bit outside the three execute bits. -/
theorem C7_exec_then_not_exec_inverse :
    ∀ (data : List Nat) (off : Nat),
    (∀ x ∈ data, x < 256) →
    off + 42 ≤ data.length →
    leValue (byteSlice data off 4) = CentralDirectoryHeader.signatureVal →
    ((leValue (byteSlice data (off + 4) 2)) >>> 8) &&& 0xFF = 0x03 →
    leValue (byteSlice data (off + 38) 4) &&& (0o170000 <<< 16)
      = (0o100000 <<< 16) →
    leValue (byteSlice data (off + 38) 4) &&& (0o000111 <<< 16) = 0 →
    (zip_make_executable data off).result = .ok ()
    ∧ (zip_make_not_executable (zip_make_executable data off).data off).result
        = .ok ()
    ∧ (zip_make_not_executable (zip_make_executable data off).data off).data
        = data
    ∧ leValue (byteSlice (zip_make_executable data off).data (off + 38) 4)
        &&& (0xFFFFFFFF ^^^ (0o000111 <<< 16))
      = leValue (byteSlice data (off + 38) 4) := by
  intro data off hb h42 hsig hunix hreg hnoexec
  obtain ⟨a, b, hcvs⟩ := list_len2 (byteSlice data (off + 4) 2)
    (length_byteSlice _ _ _ (by omega))
  have ha : a < 256 := hb a (byteSlice_subset _ _ _ (by rw [hcvs]; simp))
  have hbb : b < 256 := hb b (byteSlice_subset _ _ _ (by rw [hcvs]; simp))
  have hcvv : leValue (byteSlice data (off + 4) 2) = a + 256 * b := by
    rw [hcvs]
    simp only [leValue]
    omega
  have hb3 : b = 3 := by
    rw [hcvv, Nat.shiftRight_eq_div_pow, and_255_eq_mod] at hunix
    norm_num at hunix
    omega
  subst hb3
  obtain ⟨e0, e1, e2, e3, heas⟩ := list_len4 (byteSlice data (off + 38) 4)
    (length_byteSlice _ _ _ (by omega))
  have he0 : e0 < 256 := hb e0 (byteSlice_subset _ _ _ (by rw [heas]; simp))
  have he1 : e1 < 256 := hb e1 (byteSlice_subset _ _ _ (by rw [heas]; simp))
  have he2 : e2 < 256 := hb e2 (byteSlice_subset _ _ _ (by rw [heas]; simp))
  have he3 : e3 < 256 := hb e3 (byteSlice_subset _ _ _ (by rw [heas]; simp))
  have healt : leValue (byteSlice data (off + 38) 4) < 4294967296 := by
    rw [heas]
    simp only [leValue]
    omega
  -- the creator-version transform is the identity on a Unix entry
  have hcv1 : (leValue (byteSlice data (off + 4) 2) &&& 0x00FF) ||| 0x0300
      = leValue (byteSlice data (off + 4) 2) := by
    rw [hcvv, and_255_eq_mod]
    have hmod : (a + 256 * 3) % 256 = a := by omega
    rw [hmod, byte_lor_768 a ha]
  have hcvbytes : u16leBytes (leValue (byteSlice data (off + 4) 2))
      = byteSlice data (off + 4) 2 := by
    rw [hcvv, hcvs]
    simp only [u16leBytes, List.cons.injEq, and_true]
    omega
  -- the external-attributes set-transform only sets the execute bits
  have hm : (leValue (byteSlice data (off + 38) 4)
      &&& ((0o170000 <<< 16) ^^^ 0xFFFFFFFF)) ||| (0o100000 <<< 16)
      = leValue (byteSlice data (off + 38) 4) := by
    have hsplit := nat_split_by_mask (leValue (byteSlice data (off + 38) 4))
      ((0o170000 <<< 16) ^^^ 0xFFFFFFFF) (0o170000 <<< 16) healt (by decide)
    rw [hreg] at hsplit
    exact hsplit
  rw [zip_make_executable_eq data off,
    if_pos (by omega), if_pos hsig, if_pos (by omega), if_pos h42]
  simp only []
  rw [hcv1, hcvbytes,
    overwriteAt_byteSlice_id data (byteSlice data (off + 4) 2) (off + 4) 2
      (by omega) rfl,
    hm]
  set ea := leValue (byteSlice data (off + 38) 4) with hea
  set X := overwriteAt data (off + 38) (u32leBytes (ea ||| (0o000111 <<< 16)))
    with hX
  have horlt : ea ||| (0o000111 <<< 16) < 4294967296 := by
    have h32 : (4294967296 : Nat) = 2 ^ 32 := by norm_num
    rw [h32]
    exact Nat.or_lt_two_pow (by rw [← h32]; exact healt) (by decide)
  have hlX : X.length = data.length := by
    rw [hX, length_overwriteAt _ _ _ (by simp only [length_u32leBytes]; omega)]
  have hsig2 : byteSlice X off 4 = byteSlice data off 4 := by
    rw [hX, byteSlice_overwriteAt_disjoint _ _ _ _ _
      (by simp only [length_u32leBytes]; omega)
      (by simp only [length_u32leBytes]; omega)]
  have hcvslice : byteSlice X (off + 4) 2 = byteSlice data (off + 4) 2 := by
    rw [hX, byteSlice_overwriteAt_disjoint _ _ _ _ _
      (by simp only [length_u32leBytes]; omega)
      (by simp only [length_u32leBytes]; omega)]
  have heaslice : byteSlice X (off + 38) 4
      = u32leBytes (ea ||| (0o000111 <<< 16)) := by
    rw [hX]
    have h := byteSlice_overwriteAt_self data
      (u32leBytes (ea ||| (0o000111 <<< 16))) (off + 38)
      (by simp only [length_u32leBytes]; omega)
    simpa using h
  have heaval : leValue (byteSlice X (off + 38) 4) = ea ||| (0o000111 <<< 16) := by
    rw [heaslice, leValue_u32leBytes, Nat.mod_eq_of_lt horlt]
  -- Unix check still passes on the intermediate state
  have hux2 : leValue (byteSlice X (off + 4) 2) &&& 0xFF00 = 0x0300 := by
    rw [hcvslice, hcvv]
    have hsum : a + 256 * 3 = a ||| 768 := by
      rw [byte_lor_768 a ha]
    rw [hsum, nat_or_and_distrib, byte_and_65280 a ha]
    decide
  -- the execute bits are set in the intermediate state
  have hbits2 : leValue (byteSlice X (off + 38) 4) &&& (0o000111 <<< 16) ≠ 0 := by
    rw [heaval, nat_or_and_distrib, hnoexec, Nat.and_self]
    decide
  -- clearing the execute bits recovers the original value
  have hclear : (ea ||| (0o000111 <<< 16)) &&& (0xFFFFFFFF ^^^ (0o000111 <<< 16))
      = ea := by
    rw [nat_or_and_distrib]
    have hz : ((0o000111 <<< 16) &&& (0xFFFFFFFF ^^^ (0o000111 <<< 16)) : Nat)
        = 0 := by decide
    rw [hz, Nat.or_zero]
    have hsplit := nat_split_by_mask ea (0xFFFFFFFF ^^^ (0o000111 <<< 16))
      (0o000111 <<< 16) healt (by decide)
    rw [hnoexec, Nat.or_zero] at hsplit
    exact hsplit
  refine ⟨trivial, ?_, ?_, ?_⟩
  · rw [zip_make_not_executable_eq X off,
      if_pos (by omega), if_pos (by rw [hsig2]; exact hsig), if_pos (by omega),
      if_pos hux2, if_pos (by omega), if_pos hbits2]
  · rw [zip_make_not_executable_eq X off,
      if_pos (by omega), if_pos (by rw [hsig2]; exact hsig), if_pos (by omega),
      if_pos hux2, if_pos (by omega), if_pos hbits2]
    simp only []
    rw [heaval, hclear, hX,
      overwriteAt_overwriteAt data _ _ (off + 38)
        (by simp only [length_u32leBytes]; omega) (by simp)]
    rw [hea, heas, u32leBytes_leValue_id e0 e1 e2 e3 he0 he1 he2 he3, ← heas]
    exact overwriteAt_byteSlice_id data (byteSlice data (off + 38) 4) (off + 38) 4
      (by omega) rfl
  · rw [heaval, hclear]

/-- C7 witness: the inverse property evaluated on the concrete 42-byte
entry (Unix, regular file, permissions 0o644): making it executable and
then not executable returns the stream to its original bytes. -/
theorem C7_exec_then_not_exec_inverse_witness :
    (zip_make_executable sampleUnixEntry 0).result = .ok ()
    ∧ (zip_make_not_executable (zip_make_executable sampleUnixEntry 0).data 0).result
        = .ok ()
    ∧ (zip_make_not_executable (zip_make_executable sampleUnixEntry 0).data 0).data
        = sampleUnixEntry
    ∧ leValue (byteSlice (zip_make_executable sampleUnixEntry 0).data (0 + 38) 4)
        &&& (0xFFFFFFFF ^^^ (0o000111 <<< 16))
      = leValue (byteSlice sampleUnixEntry (0 + 38) 4) := by
  exact C7_exec_then_not_exec_inverse sampleUnixEntry 0 (by decide) (by decide)
    (by decide) (by decide) (by decide) (by decide)
